import Mathlib

/-!
Verification of the SpectralToolkit certificate pipeline.

This file shallowly embeds the pure computational core of the toolkit's
Python sources and proves the spec's claims about them:

* `src/tools/uniform_rollup_cert.py` — schema-tolerant field extraction
  (`dig`, `coalesce`, the `read_*` readers), the rollup verdict arithmetic,
  and the hash-stamped JSON writer;
* `src/tools/rollup_uniform.py` — the strict (raising) field readers;
* `src/tools/rolling_T_uniform_cert_v3.py` — `compute_delta_lo`,
  `adaptive_cert`, the tail-domain clamp in `main`, and the degenerate
  witness synthesis;
* `src/tools/band_cert.py` — the interval oracle `W_abs_iv_on` and the
  band-style JSON writer;
* `src/tools/subspace_psd_cholesky.py` — `pivoted_cholesky_psd`.

Modelling conventions:

* mpmath arbitrary-precision reals (`mp.mpf`) are modelled as exact
  rationals `ℚ` wherever the computation stays in field operations; the
  transcendental parts (`iv.exp` in `band_cert.py`) are modelled over `ℝ`
  with `Real.exp`, and `mp.sqrt` in the Cholesky code is abstracted as a
  function parameter (theorems quantify over it, so they cover the real
  square root).
* JSON values are modelled by the inductive `Json`; Python dicts are
  association lists with unique keys, looked up at the first matching key.
* The sha256 digest and the canonical serialization are abstracted as a
  single function parameter `H` from payloads to strings; the hash
  round-trip theorems hold for every such `H`.
-/

set_option autoImplicit false

namespace SpectralToolkit

/-- Model of a JSON value as read by `json.load`. Python dicts are
association lists whose keys are unique; lookups take the first match. -/
inductive Json where
  | null : Json
  | bool (b : Bool) : Json
  | str (s : String) : Json
  | num (q : ℚ) : Json
  | arr (elems : List Json) : Json
  | obj (fields : List (String × Json)) : Json

namespace Json

/-- Model of Python `str(v)` restricted to the JSON scalar shapes the
readers actually touch; container shapes are summarized structurally. -/
def pyStr : Json → String
  | null => "None"
  | bool true => "True"
  | bool false => "False"
  | str s => s
  | num q => toString q
  | arr _ => "<list>"
  | obj _ => "<dict>"

/-- The values Python's `coalesce` skips: `v in (None, "", "null")` —
the JSON null, the empty string, and the string `"null"` (a non-string
value never equals those strings). -/
def isNullLike : Json → Bool
  | null => true
  | str s => s == "" || s == "null"
  | _ => false

end Json

/-- Python dict lookup on the association-list model: the value at the
first occurrence of the key, if any. -/
def getKey : List (String × Json) → String → Option Json
  | [], _ => none
  | (k', v') :: rest, k => if k' = k then some v' else getKey rest k

/-- Embedding of `dig` from `src/tools/uniform_rollup_cert.py`: walk a key
path through nested dicts, returning `none` as soon as the current value is
not a dict or lacks the key. -/
def dig : Json → List String → Option Json
  | o, [] => some o
  | Json.obj fields, k :: rest =>
    match getKey fields k with
    | some v => dig v rest
    | none => none
  | _, _ :: _ => none

/-- Embedding of `coalesce` from `src/tools/uniform_rollup_cert.py`: try the
alias paths in order; the first value that resolves and is not `None`, `""`
or `"null"` is returned via `str(...)`; otherwise the default is returned. -/
def coalesce (o : Json) (paths : List (List String)) (default : String) : String :=
  match paths with
  | [] => default
  | p :: rest =>
    match dig o p with
    | none => coalesce o rest default
    | some v => if v.isNullLike then coalesce o rest default else v.pyStr

/-- Whether one alias path resolves for `coalesce`: `dig` finds a value
that is not `None`, `""` or `"null"`. Used to state claim C2. -/
def coalesceResolves (o : Json) (p : List String) : Bool :=
  match dig o p with
  | none => false
  | some v => !v.isNullLike

/-- Embedding of `read_band_margin` from `src/tools/uniform_rollup_cert.py`. -/
def read_band_margin (band_json : Json) : String :=
  coalesce band_json
    [ ["numbers", "band_margin_lo"],
      ["band_cert", "band_margin", "lo"],
      ["band_cert", "band_margin_lo"],
      ["numbers", "band_margin"],
      ["band_margin", "lo"],
      ["band_margin_lo"] ]
    "0"

/-- Embedding of `read_prime_block_cap` from `src/tools/uniform_rollup_cert.py`. -/
def read_prime_block_cap (pblk_json : Json) : String :=
  coalesce pblk_json
    [ ["prime_block_norm", "used_operator_norm"],
      ["used_operator_norm"],
      ["operator_norm_cap", "hi"],
      ["operator_norm_cap"],
      ["cap"] ]
    "0"

/-- Embedding of `read_prime_tail_norm` from `src/tools/uniform_rollup_cert.py`. -/
def read_prime_tail_norm (pt_json : Json) : String :=
  coalesce pt_json
    [ ["prime_tail", "env_T0_hi"],
      ["prime_tail_envelope", "env_T0_hi"],
      ["numbers", "prime_tail_norm"],
      ["env_T0_hi"],
      ["prime_tail_norm"] ]
    "0"

/-- Embedding of `read_gamma_env_T0` from `src/tools/uniform_rollup_cert.py`. -/
def read_gamma_env_T0 (ga_json : Json) : String :=
  coalesce ga_json
    [ ["gamma_tails", "gamma_env_at_T0"],
      ["gamma_tail", "env_at_T0"],
      ["gamma_env_at_T0"],
      ["tails_total"],
      ["numbers", "gamma_env_at_T0"] ]
    "0"

/-- Embedding of `read_grid_error_norm` from `src/tools/uniform_rollup_cert.py`;
the argument is `none` when `grid_error_bound.json` is absent (the loaded
value is then Python `None`, not a dict). -/
def read_grid_error_norm (grid_json : Option Json) : String :=
  match grid_json with
  | some (Json.obj fields) =>
    coalesce (Json.obj fields)
      [ ["grid_error_bound", "bound_hi"],
        ["grid_error_norm"],
        ["numbers", "grid_error_norm"],
        ["hi"],
        ["lo"] ]
      "0"
  | _ => "0"

/-- Body of the alias loop in `read_psd_pass` of
`src/tools/uniform_rollup_cert.py`: a boolean under the path, or a string
whose lowercase form is `"true"`/`"false"`, is recognizable. -/
def psdProbe (o : Json) (p : List String) : Option Bool :=
  match dig o p with
  | some (Json.bool b) => some b
  | some (Json.str s) =>
    if s.toLower = "true" then some true
    else if s.toLower = "false" then some false
    else none
  | _ => none

/-- Embedding of `read_psd_pass` from `src/tools/uniform_rollup_cert.py`:
probe the three alias paths for a recognizable boolean; with none (or no
dict at all, e.g. an absent `weil_psd_bochner.json`) default to `True`. -/
def read_psd_pass (weil_json : Option Json) : Bool :=
  match weil_json with
  | some (Json.obj fields) =>
    match psdProbe (Json.obj fields) ["PSD_verified"] with
    | some b => b
    | none =>
      match psdProbe (Json.obj fields) ["bochner_psd", "PSD_verified"] with
      | some b => b
      | none =>
        match psdProbe (Json.obj fields) ["weil_psd", "PSD_verified"] with
        | some b => b
        | none => true
  | _ => true

/-- Predicate used to state claim C8: the PSD certificate JSON carries a
recognizable boolean under at least one `PSD_verified` alias. -/
def hasRecognizablePsdBool (j : Json) : Bool :=
  (psdProbe j ["PSD_verified"]).isSome
    || (psdProbe j ["bochner_psd", "PSD_verified"]).isSome
    || (psdProbe j ["weil_psd", "PSD_verified"]).isSome

/-- Embedding of `read_gamma_env_T0` from `src/tools/rollup_uniform.py`:
a strict reader, raising `KeyError` when `gamma_tail.env_at_T0` is absent
(the uncaught exception makes the process exit nonzero). -/
def rollupUniform_read_gamma_env_T0 (js : Json) : Except String String :=
  match dig js ["gamma_tail", "env_at_T0"] with
  | some v => Except.ok v.pyStr
  | none => Except.error "gamma_envelope JSON must contain gamma_tail.env_at_T0"

/-- Embedding of `read_prime_env_T0` from `src/tools/rollup_uniform.py`. -/
def rollupUniform_read_prime_env_T0 (js : Json) : Except String String :=
  match dig js ["prime_tail", "env_T0_hi"] with
  | some v => Except.ok v.pyStr
  | none => Except.error "prime_envelope JSON must contain prime_tail.env_T0_hi"

/-- Embedding of `read_epsilon_eff_lo` from `src/tools/rollup_uniform.py`. -/
def rollupUniform_read_epsilon_eff_lo (js : Json) : Except String String :=
  match dig js ["explicit_formula", "epsilon_eff_lo"] with
  | some v => Except.ok v.pyStr
  | none => Except.error "explicit_formula JSON must contain explicit_formula.epsilon_eff_lo"

/-! ## Rollup verdict arithmetic (`uniform_rollup_cert.py`, `main`)

The extracted quantities are decimal strings parsed into mpmath's shared
arbitrary-precision representation; at sufficient `dps` every decimal
string used by the spec's scenarios denotes an exact rational, so the
shared representation is modelled as `ℚ`. -/

/-- Result block of the uniform rollup certificate, as computed by `main`
of `src/tools/uniform_rollup_cert.py` (lines 360-412). -/
structure UniformCert where
  lhs_total : ℚ
  epsilon_eff : ℚ
  PSD_verified : Bool
  PASS : Bool
  deriving DecidableEq

/-- Embedding of the derived-quantity computation of `main` in
`src/tools/uniform_rollup_cert.py`: `lhs_total = prime_block_cap +
prime_tail_norm + grid_error_norm`, `epsilon_eff = band_margin -
gamma_env_at_T0`, and `PASS = psd_ok and (lhs_total <= epsilon_eff)`,
with `psd_ok = read_psd_pass(psd)`. -/
def uniform_rollup_verdict (band_margin prime_block_cap prime_tail_norm
    gamma_env_T0 grid_error_norm : ℚ) (psd : Option Json) : UniformCert :=
  let lhs_total_val := prime_block_cap + prime_tail_norm + grid_error_norm
  let epsilon_eff_val := band_margin - gamma_env_T0
  let psd_ok := read_psd_pass psd
  { lhs_total := lhs_total_val
    epsilon_eff := epsilon_eff_val
    PSD_verified := psd_ok
    PASS := psd_ok && decide (lhs_total_val ≤ epsilon_eff_val) }

/-! ## Margin verifier (`rolling_T_uniform_cert_v3.py`) -/

/-- Embedding of `compute_delta_lo` from
`src/tools/rolling_T_uniform_cert_v3.py`:
`eps_eff_lo - Cp/T_lo**ap - Cg/T_lo**ag - grid_hi`.
The exponents are mpmath reals in the source; the claims evaluate them at
integers, so they are modelled in `ℤ` (the field operations are exact on
`ℚ` for integer exponents). -/
def compute_delta_lo (T_lo eps_eff_lo grid_hi Cp : ℚ) (ap : ℤ) (Cg : ℚ) (ag : ℤ) : ℚ :=
  let pt_hi := Cp / T_lo ^ ap
  let gt_hi := Cg / T_lo ^ ag
  eps_eff_lo - pt_hi - gt_hi - grid_hi

/-- Return tuple of `adaptive_cert`:
`(PASS, global_min, witness_or_none, intervals, max_depth, argmin_T)`.
`global_min` starts at `mp.inf`, modelled as `none`. -/
structure AdaptiveResult where
  PASS : Bool
  global_min : Option ℚ
  witness : Option (ℚ × ℚ)
  intervals : ℕ
  max_depth : ℕ
  argmin_T : ℚ
  deriving DecidableEq

/-- Model of the Python truthiness fallback `x or d` applied to
`argmin_T or a` in `adaptive_cert`: an unset (`None`) argmin falls back to
the default, and so does an argmin equal to `0` (an `mp.mpf` zero is
falsy in Python). -/
def pyOr (x : Option ℚ) (d : ℚ) : ℚ :=
  match x with
  | none => d
  | some v => if v = 0 then d else v

/-- Work loop of `adaptive_cert` (lines 128-168 of
`src/tools/rolling_T_uniform_cert_v3.py`). The Python work list is a stack
(append/pop at the end); it is modelled with the top of the stack at the
head of the list. `gmin` carries `(global_min, argmin_T)`; `fuel` is a
structural bound on the remaining iterations, maintained as
`mesh_max - total` by every caller, so the `fuel = 0` branch coincides
with the loop-condition exit `total >= mesh_max`. -/
def adaptiveLoop (d : ℚ → ℚ) (delta_target T0 : ℚ) (mesh_max : ℕ) :
    ℕ → List (ℚ × ℚ × ℕ) → ℕ → ℕ → Option (ℚ × ℚ) → AdaptiveResult
  | _, [], total, max_depth, gmin =>
    { PASS := true
      global_min := gmin.map Prod.fst
      witness := none
      intervals := total
      max_depth := max_depth
      argmin_T := pyOr (gmin.map Prod.snd) T0 }
  | 0, (a, b, _) :: _, total, max_depth, gmin =>
    { PASS := false
      global_min := gmin.map Prod.fst
      witness := some (a, b)
      intervals := total
      max_depth := max_depth
      argmin_T := pyOr (gmin.map Prod.snd) a }
  | fuel + 1, (a, b, depth) :: rest, total, max_depth, gmin =>
    if total < mesh_max then
      let d_lo := d a
      let gmin' :=
        match gmin with
        | none => some (d_lo, a)
        | some (g, t) => if d_lo < g then some (d_lo, a) else some (g, t)
      let total' := total + 1
      let max_depth' := max max_depth depth
      if delta_target ≤ d_lo then
        adaptiveLoop d delta_target T0 mesh_max fuel rest total' max_depth' gmin'
      else if mesh_max ≤ total' then
        { PASS := false
          global_min := gmin'.map Prod.fst
          witness := some (a, b)
          intervals := total'
          max_depth := max_depth'
          argmin_T := pyOr (gmin'.map Prod.snd) a }
      else
        let mid := (a + b) / 2
        adaptiveLoop d delta_target T0 mesh_max fuel
          ((a, mid, depth + 1) :: (mid, b, depth + 1) :: rest) total' max_depth' gmin'
    else
      { PASS := false
        global_min := gmin.map Prod.fst
        witness := some (a, b)
        intervals := total
        max_depth := max_depth
        argmin_T := pyOr (gmin.map Prod.snd) a }

/-- Embedding of `adaptive_cert` from
`src/tools/rolling_T_uniform_cert_v3.py` (lines 112-168): seed a uniform
mesh of `mesh_initial` sub-intervals of `[T0, T1]` and run the DFS work
loop with the processed-interval budget `mesh_max`. -/
def adaptive_cert (T0 T1 eps_eff_lo grid_hi Cp : ℚ) (ap : ℤ) (Cg : ℚ) (ag : ℤ)
    (delta_target : ℚ) (mesh_initial mesh_max : ℕ) : AdaptiveResult :=
  let xs : ℕ → ℚ := fun i => T0 + (T1 - T0) * ((i : ℚ) / (mesh_initial : ℚ))
  let work := ((List.range mesh_initial).map fun i => (xs i, xs (i + 1), 0)).reverse
  adaptiveLoop (fun T => compute_delta_lo T eps_eff_lo grid_hi Cp ap Cg ag)
    delta_target T0 mesh_max mesh_max work 0 0 none

/-- Definition following the spec's words for the Margin Verifier
termination protocol (§4.3): process the work list depth-first; a
sub-interval whose left-endpoint margin meets the target is discarded as
certified; otherwise, if the total processed-interval budget is exhausted
the run fails, else the sub-interval is bisected and both halves pushed.
The result is `true` exactly when the work list empties within the
budget. Used to state the refinement claim C5 against `adaptiveLoop`. -/
def emptiesWithinBudget (d : ℚ → ℚ) (delta_target : ℚ) (mesh_max : ℕ) :
    ℕ → List (ℚ × ℚ × ℕ) → ℕ → Bool
  | _, [], _ => true
  | 0, _ :: _, _ => false
  | fuel + 1, (a, b, depth) :: rest, total =>
    if total < mesh_max then
      if delta_target ≤ d a then
        emptiesWithinBudget d delta_target mesh_max fuel rest (total + 1)
      else if mesh_max ≤ total + 1 then false
      else
        emptiesWithinBudget d delta_target mesh_max fuel
          ((a, (a + b) / 2, depth + 1) :: ((a + b) / 2, b, depth + 1) :: rest) (total + 1)
    else false

/-- The spec-side termination condition instantiated at `adaptive_cert`'s
seeding: the same uniform mesh of `mesh_initial` sub-intervals of
`[T0, T1]`, processed with the budget `mesh_max`. -/
def adaptive_cert_empties (T0 T1 eps_eff_lo grid_hi Cp : ℚ) (ap : ℤ) (Cg : ℚ) (ag : ℤ)
    (delta_target : ℚ) (mesh_initial mesh_max : ℕ) : Bool :=
  let xs : ℕ → ℚ := fun i => T0 + (T1 - T0) * ((i : ℚ) / (mesh_initial : ℚ))
  let work := ((List.range mesh_initial).map fun i => (xs i, xs (i + 1), 0)).reverse
  emptiesWithinBudget (fun T => compute_delta_lo T eps_eff_lo grid_hi Cp ap Cg ag)
    delta_target mesh_max mesh_max work 0

/-- The left endpoints at which the work loop of `adaptive_cert`
evaluates `compute_delta_lo`, in processing order: one sample per
processed interval, mirroring the branching of `adaptiveLoop`. -/
def adaptiveLoopSamples (d : ℚ → ℚ) (delta_target : ℚ) (mesh_max : ℕ) :
    ℕ → List (ℚ × ℚ × ℕ) → ℕ → List ℚ
  | _, [], _ => []
  | 0, _ :: _, _ => []
  | fuel + 1, (a, b, depth) :: rest, total =>
    if total < mesh_max then
      if delta_target ≤ d a then
        a :: adaptiveLoopSamples d delta_target mesh_max fuel rest (total + 1)
      else if mesh_max ≤ total + 1 then [a]
      else
        a :: adaptiveLoopSamples d delta_target mesh_max fuel
          ((a, (a + b) / 2, depth + 1) :: ((a + b) / 2, b, depth + 1) :: rest) (total + 1)
    else []

/-- One step of the running-minimum accumulator of `adaptive_cert`
(lines 131-133: update `global_min`/`argmin_T` when `d_lo` improves). -/
def gminUpdate (d : ℚ → ℚ) (acc : Option (ℚ × ℚ)) (a : ℚ) : Option (ℚ × ℚ) :=
  match acc with
  | none => some (d a, a)
  | some (g, t) => if d a < g then some (d a, a) else some (g, t)

/-- The running minimum of `d` (with argmin) over a list of sampled left
endpoints, seeded with an accumulator. -/
def runningMin (d : ℚ → ℚ) (gmin : Option (ℚ × ℚ)) (samples : List ℚ) :
    Option (ℚ × ℚ) :=
  samples.foldl (gminUpdate d) gmin

/-- The sampled left endpoints of a whole `adaptive_cert` run: the
instrumentation applied to the same seeded mesh. -/
def adaptive_cert_samples (T0 T1 eps_eff_lo grid_hi Cp : ℚ) (ap : ℤ) (Cg : ℚ)
    (ag : ℤ) (delta_target : ℚ) (mesh_initial mesh_max : ℕ) : List ℚ :=
  let xs : ℕ → ℚ := fun i => T0 + (T1 - T0) * ((i : ℚ) / (mesh_initial : ℚ))
  let work := ((List.range mesh_initial).map fun i => (xs i, xs (i + 1), 0)).reverse
  adaptiveLoopSamples (fun T => compute_delta_lo T eps_eff_lo grid_hi Cp ap Cg ag)
    delta_target mesh_max mesh_max work 0

/-- Embedding of the degenerate-witness padding of `main` in
`src/tools/rolling_T_uniform_cert_v3.py` (lines 252-258):
`pad = max(abs(argmin_T) * 1e-12, 1.0)`. -/
def synth_pad (argmin_T : ℚ) : ℚ :=
  max (|argmin_T| * (1 / 10 ^ 12)) 1

/-- Embedding of the degenerate witness window synthesized by `main` when
`adaptive_cert` returned no witness: `(argmin_T - pad, argmin_T + pad)`. -/
def degenerate_witness (argmin_T : ℚ) : ℚ × ℚ :=
  (argmin_T - synth_pad argmin_T, argmin_T + synth_pad argmin_T)

/-- Witness interval finally recorded by `main` of
`src/tools/rolling_T_uniform_cert_v3.py`: the loop's witness when present,
otherwise the synthesized degenerate window around the observed argmin. -/
def main_witness (r : AdaptiveResult) : ℚ × ℚ :=
  match r.witness with
  | some w => w
  | none => degenerate_witness r.argmin_T

/-- Embedding of one step of the tail-domain clamp of `main` in
`src/tools/rolling_T_uniform_cert_v3.py` (lines 225-233): if the tail
block declares a domain start `T0` and the current left endpoint is below
it, raise the left endpoint; a missing or unparsable declaration leaves
it unchanged (the `try`/`except: pass`). -/
def clamp_tail_T0 (T0 : ℚ) (tail_T0 : Option ℚ) : ℚ :=
  match tail_T0 with
  | some t0_req => if T0 < t0_req then t0_req else T0
  | none => T0

/-- The left endpoint `main` actually verifies: the command-line `T0`
clamped successively by the prime-tail and gamma-tail declared domains. -/
def main_effective_T0 (T0_cli : ℚ) (prime_T0 gamma_T0 : Option ℚ) : ℚ :=
  clamp_tail_T0 (clamp_tail_T0 T0_cli prime_T0) gamma_T0

/-- The pair (left endpoint passed to `adaptive_cert`, `inputs.T0` echoed
into the emitted certificate) in `main` of
`src/tools/rolling_T_uniform_cert_v3.py`: both are the clamped value
(lines 236-248 and 271-282 use the reassigned `T0`). -/
def rolling_T_main_T0 (T0_cli : ℚ) (prime_T0 gamma_T0 : Option ℚ) : ℚ × ℚ :=
  let T0 := main_effective_T0 T0_cli prime_T0 gamma_T0
  (T0, T0)

/-! ## Hash-stamped JSON writers (claim C4)

Top-level payloads are Python dicts, modelled as association lists with
unique keys. The composition of sha256 with the canonical serialization
is abstracted as a function parameter `H`; the round-trip theorems hold
for every `H`, in particular for the real digest. -/

/-- Replace the value at the first occurrence of a key, or append the
binding; this is Python dict assignment on the association-list model. -/
def setKey : List (String × Json) → String → Json → List (String × Json)
  | [], k, v => [(k, v)]
  | (k', v') :: rest, k, v =>
    if k' = k then (k, v) :: rest else (k', v') :: setKey rest k v

/-- Remove the first occurrence of a key (Python `dict.pop(k, None)`;
dict keys are unique). -/
def delKey : List (String × Json) → String → List (String × Json)
  | [], _ => []
  | (k', v') :: rest, k =>
    if k' = k then rest else (k', v') :: delKey rest k

/-- Embedding of the writers' guard: if `payload` lacks a dict-valued
`meta`, install an empty one. -/
def ensureMeta (payload : List (String × Json)) : List (String × Json) :=
  match getKey payload "meta" with
  | some (Json.obj _) => payload
  | _ => setKey payload "meta" (Json.obj [])

/-- Embedding of `payload["meta"].setdefault("dps", int(dps))` in
`write_json` of `src/tools/uniform_rollup_cert.py`. -/
def metaSetdefaultDps (payload : List (String × Json)) (dps : ℤ) :
    List (String × Json) :=
  match getKey payload "meta" with
  | some (Json.obj m) =>
    match getKey m "dps" with
    | some _ => payload
    | none => setKey payload "meta" (Json.obj (setKey m "dps" (Json.num (dps : ℚ))))
  | _ => payload

/-- The copy hashed by the compact writers: the payload with `meta.sha256`
removed (`tmp_obj` with `meta.pop("sha256", None)`). -/
def stripMetaSha (payload : List (String × Json)) : List (String × Json) :=
  match getKey payload "meta" with
  | some (Json.obj m) => setKey payload "meta" (Json.obj (delKey m "sha256"))
  | _ => payload

/-- Store the digest at `meta.sha256` (`payload["meta"]["sha256"] = digest`). -/
def setMetaSha (payload : List (String × Json)) (digest : String) :
    List (String × Json) :=
  match getKey payload "meta" with
  | some (Json.obj m) => setKey payload "meta" (Json.obj (setKey m "sha256" (Json.str digest)))
  | _ => payload

/-- The stored digest of a written certificate (`meta.sha256`). -/
def getMetaSha (payload : List (String × Json)) : Option Json :=
  match getKey payload "meta" with
  | some (Json.obj m) => getKey m "sha256"
  | _ => none

/-- Whether the payload already carries a `meta.sha256` field. -/
def metaHasSha (payload : List (String × Json)) : Bool :=
  match getKey payload "meta" with
  | some (Json.obj m) => (getKey m "sha256").isSome
  | _ => false

/-- Embedding of `write_json` from `src/tools/rolling_T_uniform_cert_v3.py`
(lines 26-53; the writers of `rollup_uniform.py` and
`subspace_psd_cholesky.py` are identical): ensure `meta` is a dict, hash
the payload with any existing `meta.sha256` removed, and store the digest
at `meta.sha256`. The result is the object serialized to disk. -/
def write_json (H : List (String × Json) → String)
    (payload : List (String × Json)) : List (String × Json) :=
  let p := ensureMeta payload
  setMetaSha p (H (stripMetaSha p))

/-- Embedding of `write_json` from `src/tools/uniform_rollup_cert.py`
(lines 130-164), which additionally applies
`meta.setdefault("dps", dps)` before hashing. -/
def write_json_dps (H : List (String × Json) → String) (dps : ℤ)
    (payload : List (String × Json)) : List (String × Json) :=
  let p := metaSetdefaultDps (ensureMeta payload) dps
  setMetaSha p (H (stripMetaSha p))

/-- Embedding of `write_json` from `src/tools/band_cert.py` (lines
124-146): ensure `meta` is a dict, hash the payload as-is (no blanking;
the payloads built by `main` carry no `meta.sha256` yet), and store the
digest at `meta.sha256`. -/
def write_json_band (H : List (String × Json) → String)
    (payload : List (String × Json)) : List (String × Json) :=
  let p := ensureMeta payload
  setMetaSha p (H p)

/-! ## Pivoted Cholesky PSD certifier (`subspace_psd_cholesky.py`)

mpmath numbers are modelled over an arbitrary linear ordered field and
`mp.sqrt` as a function parameter; the theorems quantify over both, so
they cover the real instantiation. Matrices are total functions on `ℕ`
(entries outside `[0, n)` are never consulted). -/

section PivotedCholesky

variable {α : Type} [LinearOrderedField α]

/-- Embedding of `max(range(k, n), key=lambda i: diag[i])`: scan
`k, k+1, ..., n-1`, replacing the current winner only on a strictly
larger key, so ties keep the earliest index (Python `max` semantics). -/
def argmaxFrom (diag : ℕ → α) (k n : ℕ) : ℕ :=
  (List.range' (k + 1) (n - (k + 1))).foldl
    (fun p i => if diag p < diag i then i else p) k

/-- Index permutation swapping `k` and `p` (the row/column swaps of the
pivoting step; the identity when `p = k`, matching the guarded swap). -/
def swapIdx (k p i : ℕ) : ℕ :=
  if i = k then p else if i = p then k else i

/-- Pointwise update of a matrix entry. -/
def upd2 (f : ℕ → ℕ → α) (i j : ℕ) (v : α) : ℕ → ℕ → α :=
  fun s t => if s = i ∧ t = j then v else f s t

/-- Pointwise update of a vector entry. -/
def upd1 (f : ℕ → α) (i : ℕ) (v : α) : ℕ → α :=
  fun t => if t = i then v else f t

/-- Inner update loop of `pivoted_cholesky_psd` for row `i` at step `k`
(lines 264-266): for `j = k+1, ..., i`, set
`H[i][j] -= lij * L[j][k]` and mirror `H[j][i] = H[i][j]`. -/
def elimInner (k i : ℕ) (lij : α) (L H : ℕ → ℕ → α) : ℕ → ℕ → α :=
  (List.range' (k + 1) (i - k)).foldl
    (fun Hcur j =>
      let v := Hcur i j - lij * L j k
      upd2 (upd2 Hcur i j v) j i v) H

/-- Trailing update of `pivoted_cholesky_psd` at step `k` (lines 259-266):
sequentially for `i = k+1, ..., n-1`, compute `lij`, record it in `L`,
downdate `diag[i]`, and update the trailing submatrix. When `k = n-1`
the index range is empty, matching the `k < n - 1` guard. -/
def elimStep (k n : ℕ) (L H : ℕ → ℕ → α) (diag : ℕ → α) :
    (ℕ → ℕ → α) × (ℕ → ℕ → α) × (ℕ → α) :=
  (List.range' (k + 1) (n - (k + 1))).foldl
    (fun st i =>
      let lij := if st.1 k k ≠ 0 then st.2.1 i k / st.1 k k else 0
      let L1 := upd2 st.1 i k lij
      let diag1 := upd1 st.2.2 i (st.2.2 i - lij * lij)
      let H1 := elimInner k i lij L1 st.2.1
      (L1, H1, diag1))
    (L, H, diag)

/-- Resolution of the returned minimal pivot:
`min_pivot if min_pivot != mp.inf else mp.mpf("0")`; the running
`mp.inf` initialization is modelled as `none`. -/
def minPivotOut (min_pivot : Option α) : α :=
  match min_pivot with
  | some m => m
  | none => 0

/-- Main loop of `pivoted_cholesky_psd` (lines 238-267 of
`src/tools/subspace_psd_cholesky.py`). `fuel` is maintained as `n - k`
by every caller, so `fuel = 0` coincides with the `for k in range(n)`
loop running to completion. Returns `(success, min_pivot, rank)`. -/
def pivLoop (sqrt : α → α) (n : ℕ) (tol : α) :
    ℕ → ℕ → (ℕ → α) → (ℕ → ℕ → α) → (ℕ → ℕ → α) → (ℕ → ℕ) → Option α → ℕ →
      Bool × α × ℕ
  | 0, _, _, _, _, _, min_pivot, rank => (true, minPivotOut min_pivot, rank)
  | fuel + 1, k, diag, H, L, piv_order, min_pivot, rank =>
    let p := argmaxFrom diag k n
    if diag p < -tol then (false, diag p, rank)
    else if diag p ≤ tol then (true, minPivotOut min_pivot, rank)
    else
      let diag1 := fun i => diag (swapIdx k p i)
      let piv1 := fun i => piv_order (swapIdx k p i)
      let H1 := fun s t => H (swapIdx k p s) (swapIdx k p t)
      let L1 := fun s t => L (swapIdx k p s) t
      let pivot := sqrt (diag1 k)
      let L2 := upd2 L1 k k pivot
      let min_pivot1 := some (match min_pivot with
                              | none => pivot
                              | some m => min m pivot)
      let st := elimStep k n L2 H1 diag1
      pivLoop sqrt n tol fuel (k + 1) st.2.2 st.2.1 st.1 piv1 min_pivot1 (rank + 1)

/-- Embedding of `pivoted_cholesky_psd` from
`src/tools/subspace_psd_cholesky.py` (lines 230-268): initialize
`diag[i] = H[i][i]`, `piv_order = range(n)`, `L = 0`, `min_pivot = inf`,
`rank = 0` and run the pivoting loop. -/
def pivoted_cholesky_psd (sqrt : α → α) (n : ℕ) (H : ℕ → ℕ → α) (tol : α) :
    Bool × α × ℕ :=
  pivLoop sqrt n tol n 0 (fun i => H i i) H (fun _ _ => 0) (fun i => i) none 0

end PivotedCholesky

/-! ## Interval bound oracle (`band_cert.py`, `W_abs_iv_on`)

mpmath's outward-rounded interval operations (`iv`) are modelled by
their exact real counterparts; the Gaussian uses `Real.exp`. -/

/-- Real interval with endpoints `a ≤ b` (an `iv.mpf` value). -/
structure IvReal where
  a : ℝ
  b : ℝ

namespace IvReal

/-- Interval division by the positive point scalar `s` (`I / sigma`). -/
noncomputable def divScalar (I : IvReal) (s : ℝ) : IvReal :=
  ⟨I.a / s, I.b / s⟩

/-- Interval square (`I ** 2` via mpmath's integer-power rule): an
interval straddling zero gets lower endpoint `0`, otherwise the smaller
endpoint square; the upper endpoint is the larger square. -/
noncomputable def sq (I : IvReal) : IvReal :=
  ⟨if I.a ≤ 0 ∧ 0 ≤ I.b then 0 else min (I.a ^ 2) (I.b ^ 2),
   max (I.a ^ 2) (I.b ^ 2)⟩

/-- Interval negation. -/
noncomputable def neg (I : IvReal) : IvReal := ⟨-I.b, -I.a⟩

/-- Interval exponential (`iv.exp`, monotone). -/
noncomputable def ivexp (I : IvReal) : IvReal := ⟨Real.exp I.a, Real.exp I.b⟩

/-- Interval `1 - I` (the multiplicative notch). -/
noncomputable def oneSub (I : IvReal) : IvReal := ⟨1 - I.b, 1 - I.a⟩

/-- Interval product: the min/max of the four endpoint products. -/
noncomputable def mul (I J : IvReal) : IvReal :=
  ⟨min (min (I.a * J.a) (I.a * J.b)) (min (I.b * J.a) (I.b * J.b)),
   max (max (I.a * J.a) (I.a * J.b)) (max (I.b * J.a) (I.b * J.b))⟩

/-- Interval inclusion `I ⊆ J` on endpoints. -/
def incl (I J : IvReal) : Prop := J.a ≤ I.a ∧ I.b ≤ J.b

/-- Properness `a ≤ b`. -/
def proper (I : IvReal) : Prop := I.a ≤ I.b

end IvReal

/-- Clipping of a negative enclosure endpoint to zero
(`if lo < 0: lo = mp.mpf("0")`). -/
noncomputable def clip0 (x : ℝ) : ℝ := if x < 0 then 0 else x

/-- Embedding of `W_abs_iv_on` from `src/tools/band_cert.py` (lines
195-206, the closure built by `make_window`): on `I = [a, b]`,
`g = exp(-(I/sigma)**2)`, `n = 1 - exp(-(I/k0)**2)`, `w = g * n`, then
both endpoints of `w` clipped below at zero; returns `(lo, hi)`. -/
noncomputable def W_abs_iv_on (sigma k0 a b : ℝ) : ℝ × ℝ :=
  let I : IvReal := ⟨a, b⟩
  let g := ((I.divScalar sigma).sq.neg).ivexp
  let n := (((I.divScalar k0).sq.neg).ivexp).oneSub
  let w := g.mul n
  (clip0 w.a, clip0 w.b)

/-! # Theorems -/

/-! ## Helper lemmas -/

/-- Both synthetic runs of claim C3 (`delta_lo(T) = 1/T` realized as
`eps_eff_lo = 0`, `grid_hi = 0`, `Cp = -1`, `ap = 1`, `Cg = 0`, `ag = 1`)
certify the single seed interval `[1, 10]` at its left endpoint and
return a trivial PASS, for every positive budget. -/
lemma adaptive_cert_synthetic_run (t : ℚ) (ht : t ≤ 1) (M : ℕ) :
    adaptive_cert 1 10 0 0 (-1) 1 0 1 t 1 (M + 1) =
      { PASS := true, global_min := some 1, witness := none,
        intervals := 1, max_depth := 0, argmin_T := 1 } := by
  norm_num [adaptive_cert, adaptiveLoop, compute_delta_lo, pyOr, List.range_succ, ht]

/-- A probe that recognizes nothing yields `none`. -/
lemma psdProbe_eq_none_of_not_isSome {j : Json} {p : List String}
    (h : (psdProbe j p).isSome = false) : psdProbe j p = none := by
  cases hp : psdProbe j p with
  | none => rfl
  | some b => rw [hp] at h; simp at h

/-! ## C1 — rollup verdict arithmetic -/

/-- Claim C1, counterexample to the final sentence: with the stated
inputs (`lhs_total = 0.36 ≤ 0.48 = epsilon_eff`) but a PSD certificate
whose `PSD_verified` flag is `false`, the emitted verdict is `PASS =
false`, so PASS is not equivalent to `lhs_total ≤ epsilon_eff` alone. -/
theorem C1_counterexample :
    (uniform_rollup_verdict (50/100) (30/100) (5/100) (2/100) (1/100)
        (some (Json.obj [("PSD_verified", Json.bool false)]))).lhs_total ≤
      (uniform_rollup_verdict (50/100) (30/100) (5/100) (2/100) (1/100)
        (some (Json.obj [("PSD_verified", Json.bool false)]))).epsilon_eff ∧
    (uniform_rollup_verdict (50/100) (30/100) (5/100) (2/100) (1/100)
        (some (Json.obj [("PSD_verified", Json.bool false)]))).PASS = false := by
  constructor
  · show (30:ℚ)/100 + 5/100 + 1/100 ≤ 50/100 - 2/100
    norm_num
  · show (read_psd_pass (some (Json.obj [("PSD_verified", Json.bool false)])) &&
        decide ((30:ℚ)/100 + 5/100 + 1/100 ≤ 50/100 - 2/100)) = false
    rfl

/-- Claim C1 as amended: with the stated decimal inputs and no PSD
certificate, `lhs_total = 0.36`, `epsilon_eff = 0.48` exactly and `PASS =
true`; flipping the grid bound to `0.20` gives `lhs_total = 0.55 > 0.48`
and `PASS = false`; and in general `PASS` is true iff the PSD flag
resolves true and `lhs_total ≤ epsilon_eff` in the shared exact
representation. -/
theorem C1_rollup_verdict :
    ((uniform_rollup_verdict (50/100) (30/100) (5/100) (2/100) (1/100) none).lhs_total
        = 36/100 ∧
      (uniform_rollup_verdict (50/100) (30/100) (5/100) (2/100) (1/100) none).epsilon_eff
        = 48/100 ∧
      (uniform_rollup_verdict (50/100) (30/100) (5/100) (2/100) (1/100) none).PASS
        = true) ∧
    ((uniform_rollup_verdict (50/100) (30/100) (5/100) (2/100) (20/100) none).lhs_total
        = 55/100 ∧
      (uniform_rollup_verdict (50/100) (30/100) (5/100) (2/100) (20/100) none).epsilon_eff
        = 48/100 ∧
      (uniform_rollup_verdict (50/100) (30/100) (5/100) (2/100) (20/100) none).epsilon_eff
        < (uniform_rollup_verdict (50/100) (30/100) (5/100) (2/100) (20/100) none).lhs_total ∧
      (uniform_rollup_verdict (50/100) (30/100) (5/100) (2/100) (20/100) none).PASS
        = false) ∧
    ∀ (bm pbc ptn ge gen : ℚ) (psd : Option Json),
      (uniform_rollup_verdict bm pbc ptn ge gen psd).PASS = true ↔
        (read_psd_pass psd = true ∧
          (uniform_rollup_verdict bm pbc ptn ge gen psd).lhs_total ≤
            (uniform_rollup_verdict bm pbc ptn ge gen psd).epsilon_eff) := by
  refine ⟨⟨?_, ?_, ?_⟩, ⟨?_, ?_, ?_, ?_⟩, ?_⟩
  · show (30:ℚ)/100 + 5/100 + 1/100 = 36/100; norm_num
  · show (50:ℚ)/100 - 2/100 = 48/100; norm_num
  · show (read_psd_pass none && decide ((30:ℚ)/100 + 5/100 + 1/100 ≤ 50/100 - 2/100)) = true
    norm_num [read_psd_pass]
  · show (30:ℚ)/100 + 5/100 + 20/100 = 55/100; norm_num
  · show (50:ℚ)/100 - 2/100 = 48/100; norm_num
  · show (50:ℚ)/100 - 2/100 < 30/100 + 5/100 + 20/100; norm_num
  · show (read_psd_pass none && decide ((30:ℚ)/100 + 5/100 + 20/100 ≤ 50/100 - 2/100)) = false
    norm_num
  · intro bm pbc ptn ge gen psd
    show (read_psd_pass psd && decide (pbc + ptn + gen ≤ bm - ge)) = true ↔ _
    constructor
    · intro h
      rcases Bool.and_eq_true_iff.mp h with ⟨h1, h2⟩
      exact ⟨h1, of_decide_eq_true h2⟩
    · intro ⟨h1, h2⟩
      exact Bool.and_eq_true_iff.mpr ⟨h1, decide_eq_true h2⟩

/-- Witness for the amended C1 equivalence at a concrete input: the
first scenario's verdict is PASS by the backward direction of the
equivalence. -/
theorem C1_rollup_verdict_witness :
    (uniform_rollup_verdict (50/100) (30/100) (5/100) (2/100) (1/100) none).PASS = true :=
  (C1_rollup_verdict.2.2 (50/100) (30/100) (5/100) (2/100) (1/100) none).mpr
    ⟨rfl, by show (30:ℚ)/100 + 5/100 + 1/100 ≤ 50/100 - 2/100; norm_num⟩

/-! ## C2 — missing-bound handling in the rollup readers -/

/-- Claim C2, counterexample: a present but schema-unrecognizable
`band_cert.json` (an empty object) makes the required band margin
silently coalesce to the default `"0"`; no error is raised and the run
proceeds (the reader is a total function into strings). -/
theorem C2_counterexample : read_band_margin (Json.obj []) = "0" := rfl

/-- With no resolvable alias path, `coalesce` returns its default. -/
lemma coalesce_eq_default (o : Json) (default : String) :
    ∀ paths : List (List String),
      (∀ p ∈ paths, coalesceResolves o p = false) →
      coalesce o paths default = default := by
  intro paths
  induction paths with
  | nil => intro _; rfl
  | cons p rest ih =>
    intro h
    have hp : coalesceResolves o p = false := h p (List.mem_cons_self p rest)
    have hrest : ∀ q ∈ rest, coalesceResolves o q = false :=
      fun q hq => h q (List.mem_cons_of_mem p hq)
    show (match dig o p with
      | none => coalesce o rest default
      | some v => if v.isNullLike then coalesce o rest default else v.pyStr) = default
    unfold coalesceResolves at hp
    cases hd : dig o p with
    | none => exact ih hrest
    | some v =>
      rw [hd] at hp
      have hp' : (!v.isNullLike) = false := hp
      have hnull : v.isNullLike = true := by
        cases hv : v.isNullLike
        · rw [hv] at hp'
          simp at hp'
        · rfl
      show (if v.isNullLike = true then coalesce o rest default else v.pyStr) = default
      rw [if_pos hnull]
      exact ih hrest

/-- Claim C2 as amended: in `uniform_rollup_cert.py`, on every input in
which none of its structural aliases resolves, each extracted quantity —
the required band margin, prime block cap, prime tail norm and gamma
envelope just like the optional grid error — silently falls back to the
default `"0"`; and in `rollup_uniform.py`, every input missing the
required bound path makes the strict reader raise an explicit error
(hence a nonzero exit). -/
theorem C2_reader_defaults :
    (∀ j : Json,
      (∀ p ∈ [["numbers", "band_margin_lo"], ["band_cert", "band_margin", "lo"],
          ["band_cert", "band_margin_lo"], ["numbers", "band_margin"],
          ["band_margin", "lo"], ["band_margin_lo"]],
        coalesceResolves j p = false) →
      read_band_margin j = "0") ∧
    (∀ j : Json,
      (∀ p ∈ [["prime_block_norm", "used_operator_norm"], ["used_operator_norm"],
          ["operator_norm_cap", "hi"], ["operator_norm_cap"], ["cap"]],
        coalesceResolves j p = false) →
      read_prime_block_cap j = "0") ∧
    (∀ j : Json,
      (∀ p ∈ [["prime_tail", "env_T0_hi"], ["prime_tail_envelope", "env_T0_hi"],
          ["numbers", "prime_tail_norm"], ["env_T0_hi"], ["prime_tail_norm"]],
        coalesceResolves j p = false) →
      read_prime_tail_norm j = "0") ∧
    (∀ j : Json,
      (∀ p ∈ [["gamma_tails", "gamma_env_at_T0"], ["gamma_tail", "env_at_T0"],
          ["gamma_env_at_T0"], ["tails_total"], ["numbers", "gamma_env_at_T0"]],
        coalesceResolves j p = false) →
      read_gamma_env_T0 j = "0") ∧
    (∀ j : Json,
      (∀ p ∈ [["grid_error_bound", "bound_hi"], ["grid_error_norm"],
          ["numbers", "grid_error_norm"], ["hi"], ["lo"]],
        coalesceResolves j p = false) →
      read_grid_error_norm (some j) = "0") ∧
    read_grid_error_norm none = "0" ∧
    (∀ j : Json, dig j ["gamma_tail", "env_at_T0"] = none →
      rollupUniform_read_gamma_env_T0 j =
        Except.error "gamma_envelope JSON must contain gamma_tail.env_at_T0") ∧
    (∀ j : Json, dig j ["prime_tail", "env_T0_hi"] = none →
      rollupUniform_read_prime_env_T0 j =
        Except.error "prime_envelope JSON must contain prime_tail.env_T0_hi") ∧
    (∀ j : Json, dig j ["explicit_formula", "epsilon_eff_lo"] = none →
      rollupUniform_read_epsilon_eff_lo j =
        Except.error "explicit_formula JSON must contain explicit_formula.epsilon_eff_lo") := by
  refine ⟨?_, ?_, ?_, ?_, ?_, rfl, ?_, ?_, ?_⟩
  · intro j h
    exact coalesce_eq_default j "0" _ h
  · intro j h
    exact coalesce_eq_default j "0" _ h
  · intro j h
    exact coalesce_eq_default j "0" _ h
  · intro j h
    exact coalesce_eq_default j "0" _ h
  · intro j h
    cases j with
    | obj fields => exact coalesce_eq_default (Json.obj fields) "0" _ h
    | null => rfl
    | bool b => rfl
    | str s => rfl
    | num q => rfl
    | arr elems => rfl
  · intro j h
    unfold rollupUniform_read_gamma_env_T0
    rw [h]
  · intro j h
    unfold rollupUniform_read_prime_env_T0
    rw [h]
  · intro j h
    unfold rollupUniform_read_epsilon_eff_lo
    rw [h]

/-- Witness for C2 at a concrete input: an artifact whose `numbers`
block is present but empty resolves no band-margin alias and silently
reads as `"0"`. -/
theorem C2_reader_defaults_witness :
    read_band_margin (Json.obj [("numbers", Json.obj [])]) = "0" :=
  C2_reader_defaults.1 (Json.obj [("numbers", Json.obj [])]) (by decide)

/-! ## C3 — synthetic margin-verifier runs -/

/-- Claim C3, counterexample: re-running the synthetic configuration with
target `1/1.5 = 2/3` does not FAIL with a witness bracketing `T = 1.5`;
since `delta_lo` is sampled only at left endpoints and `delta_lo(1) = 1 ≥
2/3`, the run is again a trivial PASS with no witness. -/
theorem C3_counterexample :
    (adaptive_cert 1 10 0 0 (-1) 1 0 1 (2/3) 1 131072).PASS = true ∧
    (adaptive_cert 1 10 0 0 (-1) 1 0 1 (2/3) 1 131072).witness = none := by
  have h := adaptive_cert_synthetic_run (2/3) (by norm_num) 131071
  norm_num at h
  rw [h]
  exact ⟨rfl, rfl⟩

/-- Claim C3 as amended: with `delta_lo(T) = 1/T` on `[1, 10]`,
`mesh_initial = 1` and any positive budget, the run with target `0.5`
yields PASS with no refinement (one interval, depth 0); the run with
target `1/1.5` yields the same trivial PASS — not a FAIL — because the
verifier samples only left endpoints and `delta_lo(1) = 1` meets the
target, the decreasing synthetic margin violating the monotonicity
precondition. -/
theorem C3_margin_verifier_synthetic (M : ℕ) :
    adaptive_cert 1 10 0 0 (-1) 1 0 1 (1/2) 1 (M + 1) =
      { PASS := true, global_min := some 1, witness := none,
        intervals := 1, max_depth := 0, argmin_T := 1 } ∧
    adaptive_cert 1 10 0 0 (-1) 1 0 1 (2/3) 1 (M + 1) =
      { PASS := true, global_min := some 1, witness := none,
        intervals := 1, max_depth := 0, argmin_T := 1 } :=
  ⟨adaptive_cert_synthetic_run (1/2) (by norm_num) M,
   adaptive_cert_synthetic_run (2/3) (by norm_num) M⟩

/-! ## C8 — PSD flag defaults -/

/-- Claim C8: an absent PSD certificate, or one with no recognizable
boolean under any `PSD_verified` alias, makes `read_psd_pass` return
`True`; with the C1 scenario's inputs the emitted certificate then
reports `PSD_verified = true` and the overall verdict is PASS with no
PSD evidence at all. -/
theorem C8_psd_default_true :
    read_psd_pass none = true ∧
    (∀ j : Json, hasRecognizablePsdBool j = false → read_psd_pass (some j) = true) ∧
    (uniform_rollup_verdict (50/100) (30/100) (5/100) (2/100) (1/100) none).PSD_verified
      = true ∧
    (uniform_rollup_verdict (50/100) (30/100) (5/100) (2/100) (1/100) none).PASS
      = true := by
  refine ⟨rfl, ?_, rfl, ?_⟩
  · intro j h
    simp only [hasRecognizablePsdBool, Bool.or_eq_false_iff] at h
    obtain ⟨⟨h1, h2⟩, h3⟩ := h
    cases j with
    | obj fields =>
      show (match psdProbe (Json.obj fields) ["PSD_verified"] with
        | some b => b
        | none =>
          match psdProbe (Json.obj fields) ["bochner_psd", "PSD_verified"] with
          | some b => b
          | none =>
            match psdProbe (Json.obj fields) ["weil_psd", "PSD_verified"] with
            | some b => b
            | none => true) = true
      rw [psdProbe_eq_none_of_not_isSome h1, psdProbe_eq_none_of_not_isSome h2,
        psdProbe_eq_none_of_not_isSome h3]
    | null => rfl
    | bool b => rfl
    | str s => rfl
    | num q => rfl
    | arr elems => rfl
  · show (read_psd_pass none && decide ((30:ℚ)/100 + 5/100 + 1/100 ≤ 50/100 - 2/100)) = true
    norm_num [read_psd_pass]

/-- Witness for C8 at a concrete unrecognizable PSD artifact: a
`PSD_verified` field holding the number `1` still yields `True`. -/
theorem C8_psd_default_true_witness :
    read_psd_pass (some (Json.obj [("PSD_verified", Json.num 1)])) = true :=
  C8_psd_default_true.2.1 (Json.obj [("PSD_verified", Json.num 1)]) rfl

/-! ## C10 — tail-domain clamp -/

/-- Claim C10: `main` raises the requested left endpoint to any tail
block's declared domain start `T0` before calling `adaptive_cert`, and
both the verified domain and the certificate's echoed `inputs.T0` record
the clamped value: the effective `T0` dominates the request and every
declared tail start, and exceeds the request exactly when some tail
declares a larger start. -/
theorem C10_tail_domain_clamp (T0_cli : ℚ) (prime_T0 gamma_T0 : Option ℚ) :
    rolling_T_main_T0 T0_cli prime_T0 gamma_T0 =
      (main_effective_T0 T0_cli prime_T0 gamma_T0,
        main_effective_T0 T0_cli prime_T0 gamma_T0) ∧
    T0_cli ≤ main_effective_T0 T0_cli prime_T0 gamma_T0 ∧
    (∀ t, prime_T0 = some t → t ≤ main_effective_T0 T0_cli prime_T0 gamma_T0) ∧
    (∀ t, gamma_T0 = some t → t ≤ main_effective_T0 T0_cli prime_T0 gamma_T0) ∧
    (((∃ t, prime_T0 = some t ∧ T0_cli < t) ∨ (∃ t, gamma_T0 = some t ∧ T0_cli < t)) ↔
      T0_cli < main_effective_T0 T0_cli prime_T0 gamma_T0) := by
  have hstep : ∀ (x : ℚ) (o : Option ℚ), clamp_tail_T0 x o = max x ((fun v => v.getD x) o) := by
    intro x o
    cases o with
    | none => simp [clamp_tail_T0]
    | some t =>
      simp only [clamp_tail_T0, Option.getD_some]
      rcases lt_or_le x t with h | h
      · rw [if_pos h, max_eq_right h.le]
      · rw [if_neg (not_lt.mpr h), max_eq_left h]
  refine ⟨rfl, ?_, ?_, ?_, ?_⟩
  · unfold main_effective_T0
    rw [hstep, hstep]
    exact le_trans (le_max_left _ _) (le_max_left _ _)
  · intro t ht
    unfold main_effective_T0
    rw [hstep, hstep, ht]
    exact le_trans (le_max_right _ _) (le_max_left _ _)
  · intro t ht
    unfold main_effective_T0
    rw [hstep, hstep, ht]
    exact le_max_right _ _
  · unfold main_effective_T0
    rw [hstep, hstep]
    constructor
    · rintro (⟨t, ht, hlt⟩ | ⟨t, ht, hlt⟩)
      · rw [ht]
        exact lt_of_lt_of_le (lt_max_of_lt_right hlt) (le_max_left _ _)
      · rw [ht]
        exact lt_max_of_lt_right hlt
    · intro h
      by_contra hc
      rw [not_or] at hc
      obtain ⟨h1', h2'⟩ := hc
      have h1 : ∀ t, ¬ (prime_T0 = some t ∧ T0_cli < t) := fun t ht => h1' ⟨t, ht⟩
      have h2 : ∀ t, ¬ (gamma_T0 = some t ∧ T0_cli < t) := fun t ht => h2' ⟨t, ht⟩
      have hp : ((fun v => Option.getD v T0_cli) prime_T0) ≤ T0_cli := by
        cases prime_T0 with
        | none => simp
        | some t =>
          simp only [Option.getD_some]
          by_contra hx
          exact (h1 t) ⟨rfl, not_le.mp hx⟩
      have hg : ((fun v => Option.getD v (max T0_cli ((fun v => Option.getD v T0_cli) prime_T0)))
          gamma_T0) ≤ max T0_cli ((fun v => Option.getD v T0_cli) prime_T0) := by
        cases gamma_T0 with
        | none => simp
        | some t =>
          simp only [Option.getD_some]
          by_contra hx
          push_neg at hx
          have : T0_cli < t := lt_of_le_of_lt (le_max_left _ _) hx
          exact (h2 t) ⟨rfl, this⟩
      have hmax1 : max T0_cli ((fun v => Option.getD v T0_cli) prime_T0) = T0_cli :=
        max_eq_left hp
      rw [hmax1] at hg h
      have : max T0_cli ((fun v => Option.getD v T0_cli) gamma_T0) ≤ T0_cli := by
        cases gamma_T0 with
        | none => simp
        | some t => exact max_le le_rfl (by simpa using hg)
      exact absurd (lt_of_lt_of_le h this) (lt_irrefl _)

/-- Witness for C10 at a concrete input: requesting `T0 = 10` while the
prime tail declares `T0 = 20` verifies and echoes a domain start that is
at least `20`, strictly above the request. -/
theorem C10_tail_domain_clamp_witness :
    (20 : ℚ) ≤ main_effective_T0 10 (some 20) none ∧
    (10 : ℚ) < main_effective_T0 10 (some 20) none :=
  ⟨(C10_tail_domain_clamp 10 (some 20) none).2.2.1 20 rfl,
   (C10_tail_domain_clamp 10 (some 20) none).2.2.2.2.mp
     (Or.inl ⟨20, rfl, by norm_num⟩)⟩


/-! ## C4 — certificate hash round-trip -/

/-- Lookup after `setKey` at the written key yields the written value. -/
lemma getKey_setKey_self (l : List (String × Json)) (k : String) (v : Json) :
    getKey (setKey l k v) k = some v := by
  induction l with
  | nil => simp [setKey, getKey]
  | cons hd tl ih =>
    obtain ⟨k', v'⟩ := hd
    by_cases h : k' = k
    · simp [setKey, h, getKey]
    · simp only [setKey, if_neg h, getKey]
      exact ih

/-- Overwriting the same key twice keeps only the second write. -/
lemma setKey_setKey_self (l : List (String × Json)) (k : String) (v w : Json) :
    setKey (setKey l k v) k w = setKey l k w := by
  induction l with
  | nil => simp [setKey]
  | cons hd tl ih =>
    obtain ⟨k', v'⟩ := hd
    by_cases h : k' = k
    · simp [setKey, h]
    · simp [setKey, if_neg h, ih]

/-- Deleting a key after writing it restores the deletion of the
original list. -/
lemma delKey_setKey_self (l : List (String × Json)) (k : String) (v : Json) :
    delKey (setKey l k v) k = delKey l k := by
  induction l with
  | nil => simp [setKey, delKey]
  | cons hd tl ih =>
    obtain ⟨k', v'⟩ := hd
    by_cases h : k' = k
    · simp [setKey, delKey, h]
    · simp [setKey, delKey, if_neg h, ih]

/-- Deleting an absent key is the identity. -/
lemma delKey_of_getKey_eq_none (l : List (String × Json)) (k : String)
    (h : getKey l k = none) : delKey l k = l := by
  induction l with
  | nil => rfl
  | cons hd tl ih =>
    obtain ⟨k', v'⟩ := hd
    by_cases hk : k' = k
    · simp only [getKey, if_pos hk] at h
      exact (Option.some_ne_none _ h).elim
    · simp only [getKey, if_neg hk] at h
      simp [delKey, if_neg hk, ih h]

/-- Rewriting a key with its current value is the identity. -/
lemma setKey_of_getKey_eq_some (l : List (String × Json)) (k : String) (v : Json)
    (h : getKey l k = some v) : setKey l k v = l := by
  induction l with
  | nil => simp [getKey] at h
  | cons hd tl ih =>
    obtain ⟨k', v'⟩ := hd
    by_cases hk : k' = k
    · simp only [getKey, if_pos hk, Option.some_inj] at h
      simp [setKey, hk, h]
    · simp only [getKey, if_neg hk] at h
      simp [setKey, if_neg hk, ih h]

/-- After the writers' guard, `meta` is a dict; moreover a payload with
no stored hash keeps a hash-free `meta`. -/
lemma ensureMeta_meta (payload : List (String × Json)) :
    ∃ m, getKey (ensureMeta payload) "meta" = some (Json.obj m) := by
  unfold ensureMeta
  split
  · rename_i fields heq
    exact ⟨fields, heq⟩
  · exact ⟨[], getKey_setKey_self _ _ _⟩

/-- A payload with no stored hash gets a dict-valued, hash-free `meta`
from the writers' guard. -/
lemma ensureMeta_no_sha (payload : List (String × Json))
    (hno : metaHasSha payload = false) :
    ∃ m, getKey (ensureMeta payload) "meta" = some (Json.obj m) ∧
      getKey m "sha256" = none := by
  unfold metaHasSha at hno
  unfold ensureMeta
  split
  · rename_i fields heq
    rw [heq] at hno
    have hno' : (getKey fields "sha256").isSome = false := hno
    refine ⟨fields, heq, ?_⟩
    cases hx : getKey fields "sha256" with
    | none => rfl
    | some v => rw [hx] at hno'; simp at hno' 
  · exact ⟨[], getKey_setKey_self _ _ _, rfl⟩

/-- `setdefault` on `meta.dps` keeps `meta` a dict. -/
lemma metaSetdefaultDps_meta (payload : List (String × Json)) (dps : ℤ)
    (m : List (String × Json)) (hm : getKey payload "meta" = some (Json.obj m)) :
    ∃ m', getKey (metaSetdefaultDps payload dps) "meta" = some (Json.obj m') := by
  unfold metaSetdefaultDps
  rw [hm]
  show ∃ m', getKey (match getKey m "dps" with
    | some _ => payload
    | none => setKey payload "meta" (Json.obj (setKey m "dps" (Json.num (dps : ℚ)))))
      "meta" = some (Json.obj m')
  cases hd : getKey m "dps" with
  | some v => exact ⟨m, hm⟩
  | none => exact ⟨setKey m "dps" (Json.num (dps : ℚ)), getKey_setKey_self _ _ _⟩

/-- Stamping the digest rewrites `meta` in place. -/
lemma setMetaSha_eq (p : List (String × Json)) (d : String)
    (m : List (String × Json)) (hm : getKey p "meta" = some (Json.obj m)) :
    setMetaSha p d = setKey p "meta" (Json.obj (setKey m "sha256" (Json.str d))) := by
  unfold setMetaSha
  rw [hm]

/-- Blanking `meta.sha256` rewrites `meta` in place. -/
lemma stripMetaSha_eq (p : List (String × Json))
    (m : List (String × Json)) (hm : getKey p "meta" = some (Json.obj m)) :
    stripMetaSha p = setKey p "meta" (Json.obj (delKey m "sha256")) := by
  unfold stripMetaSha
  rw [hm]

/-- Blanking `meta.sha256` after storing a digest there gives the same
object as blanking the original. -/
lemma stripMetaSha_setMetaSha (p : List (String × Json)) (d : String)
    (m : List (String × Json)) (hm : getKey p "meta" = some (Json.obj m)) :
    stripMetaSha (setMetaSha p d) = stripMetaSha p := by
  rw [setMetaSha_eq p d m hm,
    stripMetaSha_eq _ (setKey m "sha256" (Json.str d)) (getKey_setKey_self _ _ _),
    stripMetaSha_eq p m hm, setKey_setKey_self, delKey_setKey_self]

/-- The stored digest of a freshly stamped payload. -/
lemma getMetaSha_setMetaSha (p : List (String × Json)) (d : String)
    (m : List (String × Json)) (hm : getKey p "meta" = some (Json.obj m)) :
    getMetaSha (setMetaSha p d) = some (Json.str d) := by
  rw [setMetaSha_eq p d m hm]
  unfold getMetaSha
  rw [getKey_setKey_self]
  exact getKey_setKey_self _ _ _

/-- Claim C4: for every digest-and-serialization function `H` and every
payload, the certificates written by the compact writers
(`rolling_T_uniform_cert_v3.py` and friends, and the `dps`-defaulting
writer of `uniform_rollup_cert.py`) store at `meta.sha256` exactly the
value of `H` on the written certificate with `meta.sha256` blanked; the
band-style writer of `band_cert.py` satisfies the same round-trip for
every payload that does not already carry a `meta.sha256` field — which
holds for all payloads its `main` constructs. -/
theorem C4_hash_roundtrip (H : List (String × Json) → String) (dps : ℤ)
    (payload : List (String × Json)) :
    getMetaSha (write_json H payload) =
      some (Json.str (H (stripMetaSha (write_json H payload)))) ∧
    getMetaSha (write_json_dps H dps payload) =
      some (Json.str (H (stripMetaSha (write_json_dps H dps payload)))) ∧
    (metaHasSha payload = false →
      getMetaSha (write_json_band H payload) =
        some (Json.str (H (stripMetaSha (write_json_band H payload))))) := by
  obtain ⟨m, hm⟩ := ensureMeta_meta payload
  refine ⟨?_, ?_, ?_⟩
  · unfold write_json
    rw [getMetaSha_setMetaSha _ _ m hm, stripMetaSha_setMetaSha _ _ m hm]
  · unfold write_json_dps
    obtain ⟨m', hm'⟩ := metaSetdefaultDps_meta _ dps m hm
    rw [getMetaSha_setMetaSha _ _ m' hm', stripMetaSha_setMetaSha _ _ m' hm']
  · intro hno
    obtain ⟨m0, hm0, hnosha⟩ := ensureMeta_no_sha payload hno
    have hstrip : stripMetaSha (ensureMeta payload) = ensureMeta payload := by
      rw [stripMetaSha_eq _ m0 hm0, delKey_of_getKey_eq_none _ _ hnosha]
      exact setKey_of_getKey_eq_some _ _ _ hm0
    unfold write_json_band
    rw [getMetaSha_setMetaSha _ _ m0 hm0, stripMetaSha_setMetaSha _ _ m0 hm0, hstrip]

/-- Witness for C4 at a concrete artifact: the empty payload (no
pre-existing hash) written by the band-style writer round-trips. -/
theorem C4_hash_roundtrip_witness :
    getMetaSha (write_json_band (fun _ => "digest") []) =
      some (Json.str ((fun _ => "digest")
        (stripMetaSha (write_json_band (fun _ => "digest") [])))) :=
  (C4_hash_roundtrip (fun _ => "digest") 220 []).2.2 rfl


/-! ## C5 — margin-verifier termination protocol -/

/-- The work loop passes exactly when the spec-side refinement process
empties the work list within the budget. -/
lemma adaptiveLoop_pass_iff_empties (d : ℚ → ℚ) (delta_target T0 : ℚ) (mesh_max : ℕ) :
    ∀ (fuel : ℕ) (work : List (ℚ × ℚ × ℕ)) (total max_depth : ℕ)
      (gmin : Option (ℚ × ℚ)),
      ((adaptiveLoop d delta_target T0 mesh_max fuel work total max_depth gmin).PASS = true ↔
        emptiesWithinBudget d delta_target mesh_max fuel work total = true) := by
  intro fuel
  induction fuel with
  | zero =>
    intro work total max_depth gmin
    cases work with
    | nil => simp [adaptiveLoop, emptiesWithinBudget]
    | cons hd rest =>
      obtain ⟨a, b, depth⟩ := hd
      simp [adaptiveLoop, emptiesWithinBudget]
  | succ n ih =>
    intro work total max_depth gmin
    cases work with
    | nil => simp [adaptiveLoop, emptiesWithinBudget]
    | cons hd rest =>
      obtain ⟨a, b, depth⟩ := hd
      simp only [adaptiveLoop, emptiesWithinBudget]
      by_cases h1 : total < mesh_max
      · rw [if_pos h1, if_pos h1]
        by_cases h2 : delta_target ≤ d a
        · rw [if_pos h2, if_pos h2]
          exact ih rest (total + 1) (max max_depth depth) _
        · rw [if_neg h2, if_neg h2]
          by_cases h3 : mesh_max ≤ total + 1
          · rw [if_pos h3, if_pos h3]
          · rw [if_neg h3, if_neg h3]
            exact ih _ (total + 1) (max max_depth depth) _
      · rw [if_neg h1, if_neg h1]

/-- The work loop passes exactly when it returns no witness interval. -/
lemma adaptiveLoop_pass_iff_witness_none (d : ℚ → ℚ) (delta_target T0 : ℚ)
    (mesh_max : ℕ) :
    ∀ (fuel : ℕ) (work : List (ℚ × ℚ × ℕ)) (total max_depth : ℕ)
      (gmin : Option (ℚ × ℚ)),
      ((adaptiveLoop d delta_target T0 mesh_max fuel work total max_depth gmin).PASS = true ↔
        (adaptiveLoop d delta_target T0 mesh_max fuel work total max_depth gmin).witness
          = none) := by
  intro fuel
  induction fuel with
  | zero =>
    intro work total max_depth gmin
    cases work with
    | nil => simp [adaptiveLoop]
    | cons hd rest =>
      obtain ⟨a, b, depth⟩ := hd
      simp [adaptiveLoop]
  | succ n ih =>
    intro work total max_depth gmin
    cases work with
    | nil => simp [adaptiveLoop]
    | cons hd rest =>
      obtain ⟨a, b, depth⟩ := hd
      simp only [adaptiveLoop]
      by_cases h1 : total < mesh_max
      · rw [if_pos h1]
        by_cases h2 : delta_target ≤ d a
        · rw [if_pos h2]
          exact ih rest (total + 1) (max max_depth depth) _
        · rw [if_neg h2]
          by_cases h3 : mesh_max ≤ total + 1
          · rw [if_pos h3]
            simp
          · rw [if_neg h3]
            exact ih _ (total + 1) (max max_depth depth) _
      · rw [if_neg h1]
        simp

/-- The loop's reported global minimum and argmin are the running
minimum of the margin function over the sampled left endpoints (the
argmin up to the Python truthiness fallback of `argmin_T or ...`). -/
lemma adaptiveLoop_gmin_spec (d : ℚ → ℚ) (delta_target T0 : ℚ) (mesh_max : ℕ) :
    ∀ (fuel : ℕ) (work : List (ℚ × ℚ × ℕ)) (total max_depth : ℕ)
      (gmin : Option (ℚ × ℚ)),
      (adaptiveLoop d delta_target T0 mesh_max fuel work total max_depth
          gmin).global_min =
        (runningMin d gmin
          (adaptiveLoopSamples d delta_target mesh_max fuel work total)).map Prod.fst ∧
      ∃ fb, (adaptiveLoop d delta_target T0 mesh_max fuel work total max_depth
          gmin).argmin_T =
        pyOr ((runningMin d gmin
          (adaptiveLoopSamples d delta_target mesh_max fuel work total)).map Prod.snd)
          fb := by
  intro fuel
  induction fuel with
  | zero =>
    intro work total max_depth gmin
    cases work with
    | nil => exact ⟨rfl, T0, rfl⟩
    | cons hd rest =>
      obtain ⟨a, b, depth⟩ := hd
      exact ⟨rfl, a, rfl⟩
  | succ n ih =>
    intro work total max_depth gmin
    cases work with
    | nil => exact ⟨rfl, T0, rfl⟩
    | cons hd rest =>
      obtain ⟨a, b, depth⟩ := hd
      simp only [adaptiveLoop, adaptiveLoopSamples]
      by_cases h1 : total < mesh_max
      · rw [if_pos h1, if_pos h1]
        by_cases h2 : delta_target ≤ d a
        · rw [if_pos h2, if_pos h2]
          exact ih rest (total + 1) (max max_depth depth) (gminUpdate d gmin a)
        · rw [if_neg h2, if_neg h2]
          by_cases h3 : mesh_max ≤ total + 1
          · rw [if_pos h3, if_pos h3]
            exact ⟨rfl, a, rfl⟩
          · rw [if_neg h3, if_neg h3]
            exact ih _ (total + 1) (max max_depth depth) (gminUpdate d gmin a)
      · rw [if_neg h1, if_neg h1]
        exact ⟨rfl, a, rfl⟩

/-- Specification of the running minimum: the reported pair is an
attained value of `d`, its argmin comes from the sample list (or the
seed), it is minimal over all samples, and it never exceeds the seed. -/
lemma runningMin_spec (d : ℚ → ℚ) :
    ∀ (samples : List ℚ) (gmin : Option (ℚ × ℚ)),
      (∀ g0 t0, gmin = some (g0, t0) → d t0 = g0) →
      ∀ g t, runningMin d gmin samples = some (g, t) →
        d t = g ∧ (t ∈ samples ∨ gmin = some (g, t)) ∧
        (∀ a ∈ samples, g ≤ d a) ∧
        (∀ g0 t0, gmin = some (g0, t0) → g ≤ g0) := by
  intro samples
  induction samples with
  | nil =>
    intro gmin hinv g t h
    have h' : gmin = some (g, t) := h
    refine ⟨hinv g t h', Or.inr h', ?_, ?_⟩
    · intro a ha
      simp at ha
    · intro g0 t0 h0
      rw [h0] at h'
      have hpair : (g0, t0) = (g, t) := Option.some_inj.mp h'
      rw [(Prod.mk.injEq _ _ _ _).mp hpair |>.1]
  | cons a tl ih =>
    intro gmin hinv g t h
    have h' : runningMin d (gminUpdate d gmin a) tl = some (g, t) := h
    have hinv' : ∀ g0 t0, gminUpdate d gmin a = some (g0, t0) → d t0 = g0 := by
      intro g0 t0 heq
      cases gmin with
      | none =>
        have heq' : some (d a, a) = some (g0, t0) := heq
        simp only [Option.some_inj, Prod.mk.injEq] at heq'
        rw [← heq'.1, ← heq'.2]
      | some p =>
        obtain ⟨g1, t1⟩ := p
        have heq' : (if d a < g1 then some (d a, a) else some (g1, t1))
            = some (g0, t0) := heq
        by_cases hlt : d a < g1
        · rw [if_pos hlt] at heq'
          simp only [Option.some_inj, Prod.mk.injEq] at heq'
          rw [← heq'.1, ← heq'.2]
        · rw [if_neg hlt] at heq'
          simp only [Option.some_inj, Prod.mk.injEq] at heq'
          rw [← heq'.1, ← heq'.2]
          exact hinv g1 t1 rfl
    obtain ⟨ha1, ha2, ha3, ha4⟩ := ih (gminUpdate d gmin a) hinv' g t h'
    have hga : g ≤ d a := by
      cases gmin with
      | none => exact ha4 (d a) a rfl
      | some p =>
        obtain ⟨g1, t1⟩ := p
        by_cases hlt : d a < g1
        · refine ha4 (d a) a ?_
          show (if d a < g1 then some (d a, a) else some (g1, t1)) = some (d a, a)
          rw [if_pos hlt]
        · refine le_trans (ha4 g1 t1 ?_) (not_lt.mp hlt)
          show (if d a < g1 then some (d a, a) else some (g1, t1)) = some (g1, t1)
          rw [if_neg hlt]
    refine ⟨ha1, ?_, ?_, ?_⟩
    · rcases ha2 with hmem | hacc
      · exact Or.inl (List.mem_cons_of_mem a hmem)
      · cases gmin with
        | none =>
          have hacc' : some (d a, a) = some (g, t) := hacc
          simp only [Option.some_inj, Prod.mk.injEq] at hacc'
          rw [← hacc'.2]
          exact Or.inl (List.mem_cons_self a tl)
        | some p =>
          obtain ⟨g1, t1⟩ := p
          have hacc' : (if d a < g1 then some (d a, a) else some (g1, t1))
              = some (g, t) := hacc
          by_cases hlt : d a < g1
          · rw [if_pos hlt] at hacc'
            simp only [Option.some_inj, Prod.mk.injEq] at hacc'
            rw [← hacc'.2]
            exact Or.inl (List.mem_cons_self a tl)
          · rw [if_neg hlt] at hacc'
            exact Or.inr hacc'
    · intro x hx
      rcases List.mem_cons.mp hx with hxa | hx'
      · rw [hxa]
        exact hga
      · exact ha3 x hx'
    · intro g0 t0 h0
      subst h0
      by_cases hlt : d a < g0
      · have hupd : gminUpdate d (some (g0, t0)) a = some (d a, a) := by
          show (if d a < g0 then some (d a, a) else some (g0, t0)) = some (d a, a)
          rw [if_pos hlt]
        exact le_of_lt (lt_of_le_of_lt (ha4 (d a) a hupd) hlt)
      · have hupd : gminUpdate d (some (g0, t0)) a = some (g0, t0) := by
          show (if d a < g0 then some (d a, a) else some (g0, t0)) = some (g0, t0)
          rw [if_neg hlt]
        exact ha4 g0 t0 hupd

/-- The synthesized degenerate window is a nonempty symmetric interval
around its center. -/
lemma degenerate_witness_symmetric (x : ℚ) :
    (degenerate_witness x).1 < x ∧ x < (degenerate_witness x).2 ∧
      x - (degenerate_witness x).1 = (degenerate_witness x).2 - x := by
  have hpad : 0 < synth_pad x :=
    lt_of_lt_of_le one_pos (le_max_right _ _)
  refine ⟨?_, ?_, ?_⟩
  · simpa [degenerate_witness] using hpad
  · simpa [degenerate_witness] using hpad
  · simp [degenerate_witness]

/-- Claim C5: `adaptive_cert` returns PASS exactly when the DFS work
list empties within the `mesh_max` budget (the spec-side process
`adaptive_cert_empties`); PASS is also equivalent to the absence of an
unresolved-sub-interval witness, so every FAIL carries one; any reported
global minimum is the minimum of the margin function over the sampled
left endpoints, attained at an argmin drawn from the samples which the
returned `argmin_T` reports (up to the Python zero-truthiness fallback);
and when no witness was produced, `main` synthesizes a nonempty
symmetric window around the returned argmin. -/
theorem C5_termination_protocol (T0 T1 eps_eff_lo grid_hi Cp : ℚ) (ap : ℤ)
    (Cg : ℚ) (ag : ℤ) (delta_target : ℚ) (mesh_initial mesh_max : ℕ) :
    ((adaptive_cert T0 T1 eps_eff_lo grid_hi Cp ap Cg ag delta_target mesh_initial
        mesh_max).PASS = true ↔
      adaptive_cert_empties T0 T1 eps_eff_lo grid_hi Cp ap Cg ag delta_target
        mesh_initial mesh_max = true) ∧
    ((adaptive_cert T0 T1 eps_eff_lo grid_hi Cp ap Cg ag delta_target mesh_initial
        mesh_max).PASS = true ↔
      (adaptive_cert T0 T1 eps_eff_lo grid_hi Cp ap Cg ag delta_target mesh_initial
        mesh_max).witness = none) ∧
    (∀ g, (adaptive_cert T0 T1 eps_eff_lo grid_hi Cp ap Cg ag delta_target
        mesh_initial mesh_max).global_min = some g →
      ∃ t, compute_delta_lo t eps_eff_lo grid_hi Cp ap Cg ag = g ∧
        t ∈ adaptive_cert_samples T0 T1 eps_eff_lo grid_hi Cp ap Cg ag delta_target
          mesh_initial mesh_max ∧
        (∀ a ∈ adaptive_cert_samples T0 T1 eps_eff_lo grid_hi Cp ap Cg ag delta_target
          mesh_initial mesh_max, g ≤ compute_delta_lo a eps_eff_lo grid_hi Cp ap Cg ag) ∧
        (t ≠ 0 → (adaptive_cert T0 T1 eps_eff_lo grid_hi Cp ap Cg ag delta_target
          mesh_initial mesh_max).argmin_T = t)) ∧
    ((adaptive_cert T0 T1 eps_eff_lo grid_hi Cp ap Cg ag delta_target mesh_initial
        mesh_max).witness = none →
      main_witness (adaptive_cert T0 T1 eps_eff_lo grid_hi Cp ap Cg ag delta_target
          mesh_initial mesh_max) =
        degenerate_witness (adaptive_cert T0 T1 eps_eff_lo grid_hi Cp ap Cg ag
          delta_target mesh_initial mesh_max).argmin_T ∧
      (main_witness (adaptive_cert T0 T1 eps_eff_lo grid_hi Cp ap Cg ag delta_target
          mesh_initial mesh_max)).1 <
        (adaptive_cert T0 T1 eps_eff_lo grid_hi Cp ap Cg ag delta_target mesh_initial
          mesh_max).argmin_T ∧
      (adaptive_cert T0 T1 eps_eff_lo grid_hi Cp ap Cg ag delta_target mesh_initial
          mesh_max).argmin_T <
        (main_witness (adaptive_cert T0 T1 eps_eff_lo grid_hi Cp ap Cg ag delta_target
          mesh_initial mesh_max)).2 ∧
      (adaptive_cert T0 T1 eps_eff_lo grid_hi Cp ap Cg ag delta_target mesh_initial
          mesh_max).argmin_T -
        (main_witness (adaptive_cert T0 T1 eps_eff_lo grid_hi Cp ap Cg ag delta_target
          mesh_initial mesh_max)).1 =
      (main_witness (adaptive_cert T0 T1 eps_eff_lo grid_hi Cp ap Cg ag delta_target
          mesh_initial mesh_max)).2 -
        (adaptive_cert T0 T1 eps_eff_lo grid_hi Cp ap Cg ag delta_target mesh_initial
          mesh_max).argmin_T) := by
  refine ⟨?_, ?_, ?_, ?_⟩
  · exact adaptiveLoop_pass_iff_empties _ _ _ _ _ _ _ _ _
  · exact adaptiveLoop_pass_iff_witness_none _ _ _ _ _ _ _ _ _
  · intro g hg
    obtain ⟨hgm, fb, hargmin⟩ := adaptiveLoop_gmin_spec
      (fun T => compute_delta_lo T eps_eff_lo grid_hi Cp ap Cg ag) delta_target T0
      mesh_max mesh_max
      (((List.range mesh_initial).map fun i =>
        ((fun j : ℕ => T0 + (T1 - T0) * ((j : ℚ) / (mesh_initial : ℚ))) i,
          (fun j : ℕ => T0 + (T1 - T0) * ((j : ℚ) / (mesh_initial : ℚ))) (i + 1),
          0)).reverse)
      0 0 none
    have hgm' : (adaptive_cert T0 T1 eps_eff_lo grid_hi Cp ap Cg ag delta_target
        mesh_initial mesh_max).global_min =
        (runningMin (fun T => compute_delta_lo T eps_eff_lo grid_hi Cp ap Cg ag) none
          (adaptive_cert_samples T0 T1 eps_eff_lo grid_hi Cp ap Cg ag delta_target
            mesh_initial mesh_max)).map Prod.fst := hgm
    have hargmin' : (adaptive_cert T0 T1 eps_eff_lo grid_hi Cp ap Cg ag delta_target
        mesh_initial mesh_max).argmin_T =
        pyOr ((runningMin (fun T => compute_delta_lo T eps_eff_lo grid_hi Cp ap Cg ag)
          none (adaptive_cert_samples T0 T1 eps_eff_lo grid_hi Cp ap Cg ag delta_target
            mesh_initial mesh_max)).map Prod.snd) fb := hargmin
    rw [hgm'] at hg
    cases hrm : runningMin (fun T => compute_delta_lo T eps_eff_lo grid_hi Cp ap Cg ag)
        none (adaptive_cert_samples T0 T1 eps_eff_lo grid_hi Cp ap Cg ag delta_target
          mesh_initial mesh_max) with
    | none =>
      rw [hrm] at hg
      simp at hg
    | some p =>
      obtain ⟨g', t⟩ := p
      rw [hrm] at hg
      simp only [Option.map_some', Option.some_inj] at hg
      obtain ⟨hd, hmem, hmin, _⟩ := runningMin_spec
        (fun T => compute_delta_lo T eps_eff_lo grid_hi Cp ap Cg ag) _ none
        (by intro g0 t0 h0; cases h0) g' t hrm
      have hmem' : t ∈ adaptive_cert_samples T0 T1 eps_eff_lo grid_hi Cp ap Cg ag
          delta_target mesh_initial mesh_max := by
        rcases hmem with hm | hm
        · exact hm
        · cases hm
      refine ⟨t, by rw [← hg]; exact hd, hmem', ?_, ?_⟩
      · intro a ha
        rw [← hg]
        exact hmin a ha
      · intro ht0
        rw [hargmin', hrm]
        show pyOr (some t) fb = t
        show (if t = 0 then fb else t) = t
        rw [if_neg ht0]
  · intro hw
    have hmw : main_witness (adaptive_cert T0 T1 eps_eff_lo grid_hi Cp ap Cg ag
        delta_target mesh_initial mesh_max) =
        degenerate_witness (adaptive_cert T0 T1 eps_eff_lo grid_hi Cp ap Cg ag
          delta_target mesh_initial mesh_max).argmin_T := by
      unfold main_witness
      rw [hw]
    obtain ⟨hl, hr, hs⟩ := degenerate_witness_symmetric
      (adaptive_cert T0 T1 eps_eff_lo grid_hi Cp ap Cg ag delta_target mesh_initial
        mesh_max).argmin_T
    rw [hmw]
    exact ⟨rfl, hl, hr, hs⟩

/-- Witness for C5 at the synthetic configuration of C3: the run passes,
its global minimum `1` is attained at a sampled left endpoint that is
minimal over all samples and reported as the argmin, and the synthesized
window around the argmin is a nonempty symmetric interval. -/
theorem C5_termination_protocol_witness :
    adaptive_cert_empties 1 10 0 0 (-1) 1 0 1 (1/2) 1 4 = true ∧
    (∃ t, compute_delta_lo t 0 0 (-1) 1 0 1 = 1 ∧
      t ∈ adaptive_cert_samples 1 10 0 0 (-1) 1 0 1 (1/2) 1 4 ∧
      (∀ a ∈ adaptive_cert_samples 1 10 0 0 (-1) 1 0 1 (1/2) 1 4,
        (1 : ℚ) ≤ compute_delta_lo a 0 0 (-1) 1 0 1) ∧
      (t ≠ 0 → (adaptive_cert 1 10 0 0 (-1) 1 0 1 (1/2) 1 4).argmin_T = t)) ∧
    (main_witness (adaptive_cert 1 10 0 0 (-1) 1 0 1 (1/2) 1 4)).1 <
      (adaptive_cert 1 10 0 0 (-1) 1 0 1 (1/2) 1 4).argmin_T := by
  have hrun := adaptive_cert_synthetic_run (1/2) (by norm_num) 3
  have h := C5_termination_protocol 1 10 0 0 (-1) 1 0 1 (1/2) 1 4
  refine ⟨?_, ?_, ?_⟩
  · exact (h.1).mp (by rw [hrun])
  · exact h.2.2.1 1 (by rw [hrun])
  · exact ((h.2.2.2) (by rw [hrun])).2.1


/-! ## C6 / C9 — pivoted Cholesky failure and truncation rules -/

/-- A FAIL return of the pivoting loop always carries a pivot diagonal
strictly below `-tol`. -/
lemma pivLoop_fail_lt {α : Type} [LinearOrderedField α] (sqrt : α → α) (n : ℕ)
    (tol : α) :
    ∀ (fuel k : ℕ) (diag : ℕ → α) (H L : ℕ → ℕ → α) (piv_order : ℕ → ℕ)
      (mp : Option α) (rank : ℕ),
      (pivLoop sqrt n tol fuel k diag H L piv_order mp rank).1 = false →
      (pivLoop sqrt n tol fuel k diag H L piv_order mp rank).2.1 < -tol := by
  intro fuel
  induction fuel with
  | zero =>
    intro k diag H L piv_order mp rank h
    simp [pivLoop] at h
  | succ m ih =>
    intro k diag H L piv_order mp rank h
    simp only [pivLoop] at h ⊢
    by_cases h1 : diag (argmaxFrom diag k n) < -tol
    · rw [if_pos h1] at h ⊢
      exact h1
    · rw [if_neg h1] at h ⊢
      by_cases h2 : diag (argmaxFrom diag k n) ≤ tol
      · rw [if_pos h2] at h
        simp at h
      · rw [if_neg h2] at h ⊢
        exact ih _ _ _ _ _ _ _ h

/-- A selected pivot diagonal that is not below `-tol` but at most `tol`
breaks the loop immediately with success and the current rank. -/
lemma pivLoop_break {α : Type} [LinearOrderedField α] (sqrt : α → α) (n : ℕ)
    (tol : α) (fuel k : ℕ) (diag : ℕ → α) (H L : ℕ → ℕ → α) (piv_order : ℕ → ℕ)
    (mp : Option α) (rank : ℕ)
    (h1 : ¬ diag (argmaxFrom diag k n) < -tol)
    (h2 : diag (argmaxFrom diag k n) ≤ tol) :
    pivLoop sqrt n tol (fuel + 1) k diag H L piv_order mp rank =
      (true, minPivotOut mp, rank) := by
  simp only [pivLoop]
  rw [if_neg h1, if_pos h2]

/-- Claim C6: for every symmetric matrix and tolerance `tol > 0` (and
every square-root routine), `pivoted_cholesky_psd` returns `success =
false` only with an encountered pivot diagonal strictly below `-tol`
(the returned value is that diagonal); and at any loop state whose
selected (maximal remaining) pivot diagonal lies in `[-tol, 0]`, the
factorization terminates at once with `success = true` and the rank
reached so far — rank deficiency, never a PSD violation. -/
theorem C6_psd_fail_rule {α : Type} [LinearOrderedField α] (sqrt : α → α) (n : ℕ)
    (H : ℕ → ℕ → α) (tol : α) (htol : 0 < tol) (hsym : ∀ i j, H i j = H j i) :
    ((pivoted_cholesky_psd sqrt n H tol).1 = false →
      (pivoted_cholesky_psd sqrt n H tol).2.1 < -tol) ∧
    (∀ (fuel k : ℕ) (diag : ℕ → α) (Hm L : ℕ → ℕ → α) (piv_order : ℕ → ℕ)
      (mp : Option α) (rank : ℕ),
      -tol ≤ diag (argmaxFrom diag k n) → diag (argmaxFrom diag k n) ≤ 0 →
      pivLoop sqrt n tol (fuel + 1) k diag Hm L piv_order mp rank =
        (true, minPivotOut mp, rank)) := by
  constructor
  · exact pivLoop_fail_lt sqrt n tol n 0 _ _ _ _ none 0
  · intro fuel k diag Hm L piv_order mp rank hge hle
    exact pivLoop_break sqrt n tol fuel k diag Hm L piv_order mp rank
      (not_lt.mpr hge) (le_trans hle htol.le)

/-- Witness for C6 at a concrete state over `ℚ`: a selected pivot
diagonal `-1/2 ∈ [-1, 0]` with `tol = 1` terminates with success and
rank `0`. -/
theorem C6_psd_fail_rule_witness :
    pivLoop (fun x : ℚ => x) 1 1 1 0 (fun _ => -1/2) (fun _ _ => -1/2)
      (fun _ _ => 0) (fun i => i) none 0 = (true, 0, 0) :=
  (C6_psd_fail_rule (fun x : ℚ => x) 1 (fun _ _ => -1/2) 1 (by norm_num)
      (fun _ _ => rfl)).2 0 0 (fun _ => -1/2) (fun _ _ => -1/2) (fun _ _ => 0)
    (fun i => i) none 0 (by show (-1 : ℚ) ≤ -1/2; norm_num)
    (by show (-1/2 : ℚ) ≤ 0; norm_num)

/-- Claim C9: a pivot step is counted in the rank only when the selected
maximal remaining diagonal strictly exceeds `tol`: any loop state whose
selected pivot diagonal lies in `(0, tol]` stops at once with `success =
true` and the current rank; in particular the strictly positive-definite
`1 × 1` matrix `[[tol/2]]` is reported successful with rank `0 < 1` —
rank-deficient despite positive-definiteness. -/
theorem C9_small_pivot_truncation {α : Type} [LinearOrderedField α]
    (sqrt : α → α) (tol : α) (htol : 0 < tol) :
    (∀ (n fuel k : ℕ) (diag : ℕ → α) (Hm L : ℕ → ℕ → α) (piv_order : ℕ → ℕ)
      (mp : Option α) (rank : ℕ),
      0 < diag (argmaxFrom diag k n) → diag (argmaxFrom diag k n) ≤ tol →
      pivLoop sqrt n tol (fuel + 1) k diag Hm L piv_order mp rank =
        (true, minPivotOut mp, rank)) ∧
    (0 < tol / 2 ∧
      pivoted_cholesky_psd sqrt 1 (fun _ _ => tol / 2) tol = (true, 0, 0) ∧
      (0 : ℕ) < 1) := by
  constructor
  · intro n fuel k diag Hm L piv_order mp rank hpos hle
    refine pivLoop_break sqrt n tol fuel k diag Hm L piv_order mp rank
      (not_lt.mpr ?_) hle
    calc -tol ≤ 0 := by linarith
    _ ≤ diag (argmaxFrom diag k n) := hpos.le
  · refine ⟨by linarith, ?_, one_pos⟩
    unfold pivoted_cholesky_psd
    exact pivLoop_break sqrt 1 tol 0 0 _ _ _ _ none 0
      (not_lt.mpr (by show -tol ≤ tol / 2; linarith))
      (by show tol / 2 ≤ tol; linarith)

/-- Witness for C9 over `ℚ` with `tol = 1`: the positive-definite matrix
`[[1/2]]` is certified with rank `0` out of `1`. -/
theorem C9_small_pivot_truncation_witness :
    pivoted_cholesky_psd (fun x : ℚ => x) 1 (fun _ _ => 1/2) 1 = (true, 0, 0) := by
  have h := (C9_small_pivot_truncation (fun x : ℚ => x) 1 (by norm_num)).2.2.1
  norm_num at h
  exact h


/-! ## C7 — refinement monotonicity of the interval oracle -/

/-- A point of an interval has its square below the endpoint-square max. -/
lemma sq_le_max_sq {x p q : ℝ} (hp : p ≤ x) (hq : x ≤ q) :
    x ^ 2 ≤ max (p ^ 2) (q ^ 2) := by
  rcases le_total 0 x with h | h
  · exact le_max_of_le_right (by nlinarith)
  · exact le_max_of_le_left (by nlinarith)

namespace IvReal

/-- Scalar division by a positive scalar preserves inclusion. -/
lemma divScalar_incl {I J : IvReal} {s : ℝ} (hs : 0 < s) (h : I.incl J) :
    (I.divScalar s).incl (J.divScalar s) := by
  obtain ⟨h1, h2⟩ := h
  constructor
  · show J.a / s ≤ I.a / s
    gcongr
  · show I.b / s ≤ J.b / s
    gcongr

/-- Scalar division by a positive scalar preserves properness. -/
lemma divScalar_proper {I : IvReal} {s : ℝ} (hs : 0 < s) (h : I.proper) :
    (I.divScalar s).proper := by
  have hab : I.a ≤ I.b := h
  show I.a / s ≤ I.b / s
  gcongr

/-- The interval square preserves inclusion (for a proper inner
interval). -/
lemma sq_incl {I J : IvReal} (h : I.incl J) (hI : I.proper) :
    (I.sq).incl (J.sq) := by
  obtain ⟨h1, h2⟩ := h
  have hab : I.a ≤ I.b := hI
  constructor
  · show (if J.a ≤ 0 ∧ 0 ≤ J.b then (0:ℝ) else min (J.a ^ 2) (J.b ^ 2)) ≤
      (if I.a ≤ 0 ∧ 0 ≤ I.b then (0:ℝ) else min (I.a ^ 2) (I.b ^ 2))
    by_cases hJ : J.a ≤ 0 ∧ 0 ≤ J.b
    · rw [if_pos hJ]
      by_cases hI0 : I.a ≤ 0 ∧ 0 ≤ I.b
      · rw [if_pos hI0]
      · rw [if_neg hI0]
        exact le_min (sq_nonneg _) (sq_nonneg _)
    · have hInot : ¬ (I.a ≤ 0 ∧ 0 ≤ I.b) := by
        intro hc
        exact hJ ⟨le_trans h1 hc.1, le_trans hc.2 h2⟩
      rw [if_neg hJ, if_neg hInot]
      rcases not_and_or.mp hJ with hja | hjb
      · push_neg at hja
        have hJb : J.a ≤ I.b := le_trans h1 hab
        apply le_min
        · nlinarith [min_le_left (J.a ^ 2) (J.b ^ 2)]
        · nlinarith [min_le_left (J.a ^ 2) (J.b ^ 2)]
      · push_neg at hjb
        have hIa : I.a ≤ J.b := le_trans hab h2
        apply le_min
        · nlinarith [min_le_right (J.a ^ 2) (J.b ^ 2)]
        · nlinarith [min_le_right (J.a ^ 2) (J.b ^ 2)]
  · show max (I.a ^ 2) (I.b ^ 2) ≤ max (J.a ^ 2) (J.b ^ 2)
    exact max_le (sq_le_max_sq h1 (le_trans hI h2))
      (sq_le_max_sq (le_trans h1 hI) h2)

/-- The interval square is proper. -/
lemma sq_proper (I : IvReal) : (I.sq).proper := by
  unfold sq proper
  by_cases h : I.a ≤ 0 ∧ 0 ≤ I.b
  · rw [if_pos h]
    exact le_max_of_le_left (sq_nonneg _)
  · rw [if_neg h]
    exact le_trans (min_le_left _ _) (le_max_left _ _)

/-- Negation preserves inclusion. -/
lemma neg_incl {I J : IvReal} (h : I.incl J) : (I.neg).incl (J.neg) :=
  ⟨neg_le_neg h.2, neg_le_neg h.1⟩

/-- Negation preserves properness. -/
lemma neg_proper {I : IvReal} (h : I.proper) : (I.neg).proper :=
  neg_le_neg h

/-- The interval exponential preserves inclusion. -/
lemma ivexp_incl {I J : IvReal} (h : I.incl J) : (I.ivexp).incl (J.ivexp) :=
  ⟨Real.exp_le_exp.mpr h.1, Real.exp_le_exp.mpr h.2⟩

/-- The interval exponential preserves properness. -/
lemma ivexp_proper {I : IvReal} (h : I.proper) : (I.ivexp).proper :=
  Real.exp_le_exp.mpr h

/-- `1 - I` preserves inclusion. -/
lemma oneSub_incl {I J : IvReal} (h : I.incl J) : (I.oneSub).incl (J.oneSub) :=
  ⟨sub_le_sub_left h.2 1, sub_le_sub_left h.1 1⟩

/-- `1 - I` preserves properness. -/
lemma oneSub_proper {I : IvReal} (h : I.proper) : (I.oneSub).proper :=
  sub_le_sub_left h 1

/-- A product of points of two intervals dominates the four-product
minimum. -/
lemma mul_mem_lower {x y pa pb qa qb : ℝ} (hx1 : pa ≤ x) (hx2 : x ≤ pb)
    (hy1 : qa ≤ y) (hy2 : y ≤ qb) :
    min (min (pa * qa) (pa * qb)) (min (pb * qa) (pb * qb)) ≤ x * y := by
  have h4a : min (min (pa * qa) (pa * qb)) (min (pb * qa) (pb * qb)) ≤ pa * qa :=
    le_trans (min_le_left _ _) (min_le_left _ _)
  have h4b : min (min (pa * qa) (pa * qb)) (min (pb * qa) (pb * qb)) ≤ pa * qb :=
    le_trans (min_le_left _ _) (min_le_right _ _)
  have h4c : min (min (pa * qa) (pa * qb)) (min (pb * qa) (pb * qb)) ≤ pb * qa :=
    le_trans (min_le_right _ _) (min_le_left _ _)
  have h4d : min (min (pa * qa) (pa * qb)) (min (pb * qa) (pb * qb)) ≤ pb * qb :=
    le_trans (min_le_right _ _) (min_le_right _ _)
  have hqa : min (min (pa * qa) (pa * qb)) (min (pb * qa) (pb * qb)) ≤ x * qa := by
    rcases le_total 0 qa with hq | hq
    · exact le_trans h4a (mul_le_mul_of_nonneg_right hx1 hq)
    · exact le_trans h4c (mul_le_mul_of_nonpos_right hx2 hq)
  have hqb : min (min (pa * qa) (pa * qb)) (min (pb * qa) (pb * qb)) ≤ x * qb := by
    rcases le_total 0 qb with hq | hq
    · exact le_trans h4b (mul_le_mul_of_nonneg_right hx1 hq)
    · exact le_trans h4d (mul_le_mul_of_nonpos_right hx2 hq)
  rcases le_total 0 x with hx | hx
  · exact le_trans hqa (mul_le_mul_of_nonneg_left hy1 hx)
  · exact le_trans hqb (mul_le_mul_of_nonpos_left hy2 hx)

/-- A product of points of two intervals stays below the four-product
maximum. -/
lemma mul_mem_upper {x y pa pb qa qb : ℝ} (hx1 : pa ≤ x) (hx2 : x ≤ pb)
    (hy1 : qa ≤ y) (hy2 : y ≤ qb) :
    x * y ≤ max (max (pa * qa) (pa * qb)) (max (pb * qa) (pb * qb)) := by
  have h4a : pa * qa ≤ max (max (pa * qa) (pa * qb)) (max (pb * qa) (pb * qb)) :=
    le_trans (le_max_left _ _) (le_max_left _ _)
  have h4b : pa * qb ≤ max (max (pa * qa) (pa * qb)) (max (pb * qa) (pb * qb)) :=
    le_trans (le_max_right _ _) (le_max_left _ _)
  have h4c : pb * qa ≤ max (max (pa * qa) (pa * qb)) (max (pb * qa) (pb * qb)) :=
    le_trans (le_max_left _ _) (le_max_right _ _)
  have h4d : pb * qb ≤ max (max (pa * qa) (pa * qb)) (max (pb * qa) (pb * qb)) :=
    le_trans (le_max_right _ _) (le_max_right _ _)
  have hqa : x * qa ≤ max (max (pa * qa) (pa * qb)) (max (pb * qa) (pb * qb)) := by
    rcases le_total 0 qa with hq | hq
    · exact le_trans (mul_le_mul_of_nonneg_right hx2 hq) h4c
    · exact le_trans (mul_le_mul_of_nonpos_right hx1 hq) h4a
  have hqb : x * qb ≤ max (max (pa * qa) (pa * qb)) (max (pb * qa) (pb * qb)) := by
    rcases le_total 0 qb with hq | hq
    · exact le_trans (mul_le_mul_of_nonneg_right hx2 hq) h4d
    · exact le_trans (mul_le_mul_of_nonpos_right hx1 hq) h4b
  rcases le_total 0 x with hx | hx
  · exact le_trans (mul_le_mul_of_nonneg_left hy2 hx) hqb
  · exact le_trans (mul_le_mul_of_nonpos_left hy1 hx) hqa

/-- Interval multiplication preserves inclusion (for proper inner
intervals). -/
lemma mul_incl {I J K L : IvReal} (hIJ : I.incl J) (hKL : K.incl L)
    (hI : I.proper) (hK : K.proper) : (I.mul K).incl (J.mul L) := by
  obtain ⟨hi1, hi2⟩ := hIJ
  obtain ⟨hk1, hk2⟩ := hKL
  constructor
  · show (J.mul L).a ≤ (I.mul K).a
    unfold mul
    refine le_min (le_min ?_ ?_) (le_min ?_ ?_)
    · exact mul_mem_lower hi1 (le_trans hI hi2) hk1 (le_trans hK hk2)
    · exact mul_mem_lower hi1 (le_trans hI hi2) (le_trans hk1 hK) hk2
    · exact mul_mem_lower (le_trans hi1 hI) hi2 hk1 (le_trans hK hk2)
    · exact mul_mem_lower (le_trans hi1 hI) hi2 (le_trans hk1 hK) hk2
  · show (I.mul K).b ≤ (J.mul L).b
    unfold mul
    refine max_le (max_le ?_ ?_) (max_le ?_ ?_)
    · exact mul_mem_upper hi1 (le_trans hI hi2) hk1 (le_trans hK hk2)
    · exact mul_mem_upper hi1 (le_trans hI hi2) (le_trans hk1 hK) hk2
    · exact mul_mem_upper (le_trans hi1 hI) hi2 hk1 (le_trans hK hk2)
    · exact mul_mem_upper (le_trans hi1 hI) hi2 (le_trans hk1 hK) hk2

end IvReal

/-- Clipping at zero is monotone. -/
lemma clip0_mono {x y : ℝ} (h : x ≤ y) : clip0 x ≤ clip0 y := by
  unfold clip0
  by_cases hx : x < 0
  · rw [if_pos hx]
    by_cases hy : y < 0
    · rw [if_pos hy]
    · rw [if_neg hy]
      exact le_of_not_lt hy
  · rw [if_neg hx, if_neg (not_lt.mpr (le_trans (not_lt.mp hx) h))]
    exact h

/-- The lower enclosure of `W_abs_iv_on` only tightens (grows) when the
interval shrinks. -/
lemma W_abs_iv_on_lo_mono (sigma k0 c d a b : ℝ) (hs : 0 < sigma) (hk : 0 < k0)
    (hac : a ≤ c) (hcd : c ≤ d) (hdb : d ≤ b) :
    (W_abs_iv_on sigma k0 a b).1 ≤ (W_abs_iv_on sigma k0 c d).1 := by
  have hIJ : IvReal.incl ⟨c, d⟩ ⟨a, b⟩ := ⟨hac, hdb⟩
  have hIp : IvReal.proper ⟨c, d⟩ := hcd
  have hg : (((⟨c, d⟩ : IvReal).divScalar sigma).sq.neg.ivexp).incl
      (((⟨a, b⟩ : IvReal).divScalar sigma).sq.neg.ivexp) :=
    IvReal.ivexp_incl (IvReal.neg_incl
      (IvReal.sq_incl (IvReal.divScalar_incl hs hIJ) (IvReal.divScalar_proper hs hIp)))
  have hgp : (((⟨c, d⟩ : IvReal).divScalar sigma).sq.neg.ivexp).proper :=
    IvReal.ivexp_proper (IvReal.neg_proper (IvReal.sq_proper _))
  have hn : ((((⟨c, d⟩ : IvReal).divScalar k0).sq.neg.ivexp).oneSub).incl
      ((((⟨a, b⟩ : IvReal).divScalar k0).sq.neg.ivexp).oneSub) :=
    IvReal.oneSub_incl (IvReal.ivexp_incl (IvReal.neg_incl
      (IvReal.sq_incl (IvReal.divScalar_incl hk hIJ) (IvReal.divScalar_proper hk hIp))))
  have hnp : ((((⟨c, d⟩ : IvReal).divScalar k0).sq.neg.ivexp).oneSub).proper :=
    IvReal.oneSub_proper (IvReal.ivexp_proper (IvReal.neg_proper (IvReal.sq_proper _)))
  have hw := IvReal.mul_incl hg hn hgp hnp
  exact clip0_mono hw.1

/-- Claim C7 as amended: splitting a sub-interval `[a, b]` at any interior
point `m` and taking `min(lo_left, lo_right)` of the two enclosures never
falls below the unsplit interval's lower enclosure — refinement only
tightens the bound. -/
theorem C7_refinement_monotonicity (sigma k0 a m b : ℝ) (hs : 0 < sigma)
    (hk : 0 < k0) (ham : a ≤ m) (hmb : m ≤ b) :
    (W_abs_iv_on sigma k0 a b).1 ≤
      min (W_abs_iv_on sigma k0 a m).1 (W_abs_iv_on sigma k0 m b).1 :=
  le_min (W_abs_iv_on_lo_mono sigma k0 a m a b hs hk le_rfl ham hmb)
    (W_abs_iv_on_lo_mono sigma k0 m b a b hs hk ham hmb le_rfl)

/-- Witness for the amended C7 at a concrete split: `sigma = k0 = 1`,
`[1, 3]` split at `2`. -/
theorem C7_refinement_monotonicity_witness :
    (W_abs_iv_on 1 1 1 3).1 ≤
      min (W_abs_iv_on 1 1 1 2).1 (W_abs_iv_on 1 1 2 3).1 :=
  C7_refinement_monotonicity 1 1 1 2 3 (by norm_num) (by norm_num)
    (by norm_num) (by norm_num)


/-- Explicit form of the lower enclosure of `W_abs_iv_on` with
`sigma = k0 = 1` on an interval of positive numbers. -/
lemma W_lo_eval (a b : ℝ) (ha : 0 < a) (hab : a ≤ b) :
    (W_abs_iv_on 1 1 a b).1 =
      clip0 (min
        (min (Real.exp (-(b ^ 2)) * (1 - Real.exp (-(a ^ 2))))
          (Real.exp (-(b ^ 2)) * (1 - Real.exp (-(b ^ 2)))))
        (min (Real.exp (-(a ^ 2)) * (1 - Real.exp (-(a ^ 2))))
          (Real.exp (-(a ^ 2)) * (1 - Real.exp (-(b ^ 2)))))) := by
  have hcond : ¬ (a ≤ 0 ∧ 0 ≤ b) := by
    rintro ⟨h1, _⟩
    linarith
  have hmin : min (a ^ 2) (b ^ 2) = a ^ 2 := min_eq_left (by nlinarith)
  have hmax : max (a ^ 2) (b ^ 2) = b ^ 2 := max_eq_right (by nlinarith)
  simp only [W_abs_iv_on, IvReal.divScalar, IvReal.sq, IvReal.neg, IvReal.ivexp,
    IvReal.oneSub, IvReal.mul, div_one, hcond, if_false, hmin, hmax]


/-- Claim C7, counterexample to the stated direction: with
`sigma = k0 = 1`, splitting `[1, 3]` at the midpoint `2` produces
`min(lo_left, lo_right)` strictly above the unsplit interval's `lo`, so
the refined minimum does exceed the unsplit lower enclosure. -/
theorem C7_counterexample :
    ¬ (min (W_abs_iv_on 1 1 1 2).1 (W_abs_iv_on 1 1 2 3).1 ≤
        (W_abs_iv_on 1 1 1 3).1) := by
  have e12 := W_lo_eval 1 2 (by norm_num) (by norm_num)
  have e23 := W_lo_eval 2 3 (by norm_num) (by norm_num)
  have e13 := W_lo_eval 1 3 (by norm_num) (by norm_num)
  have p1 : ((1:ℝ) ^ 2) = 1 := by norm_num
  have p2 : ((2:ℝ) ^ 2) = 4 := by norm_num
  have p3 : ((3:ℝ) ^ 2) = 9 := by norm_num
  simp only [p1, p2, p3] at e12 e23 e13
  rw [e12, e23, e13]
  have hA : (0:ℝ) < Real.exp (-9) := Real.exp_pos _
  have hB : (0:ℝ) < Real.exp (-4) := Real.exp_pos _
  have hC : (0:ℝ) < Real.exp (-1) := Real.exp_pos _
  have hAB : Real.exp (-9) < Real.exp (-4) := Real.exp_lt_exp.mpr (by norm_num)
  have hBC : Real.exp (-4) < Real.exp (-1) := Real.exp_lt_exp.mpr (by norm_num)
  have hC1 : Real.exp (-1) < 1 := by
    calc Real.exp (-1) < Real.exp 0 := Real.exp_lt_exp.mpr (by norm_num)
    _ = 1 := Real.exp_zero
  have k1 : (0:ℝ) ≤ 1 - Real.exp (-1) := by linarith
  have k4 : (0:ℝ) ≤ 1 - Real.exp (-4) := by linarith
  have k9 : (0:ℝ) ≤ 1 - Real.exp (-9) := by linarith
  have hnn13 : (0:ℝ) ≤ min
      (min (Real.exp (-9) * (1 - Real.exp (-1))) (Real.exp (-9) * (1 - Real.exp (-9))))
      (min (Real.exp (-1) * (1 - Real.exp (-1))) (Real.exp (-1) * (1 - Real.exp (-9)))) :=
    le_min (le_min (mul_nonneg hA.le k1) (mul_nonneg hA.le k9))
      (le_min (mul_nonneg hC.le k1) (mul_nonneg hC.le k9))
  have hnn12 : (0:ℝ) ≤ min
      (min (Real.exp (-4) * (1 - Real.exp (-1))) (Real.exp (-4) * (1 - Real.exp (-4))))
      (min (Real.exp (-1) * (1 - Real.exp (-1))) (Real.exp (-1) * (1 - Real.exp (-4)))) :=
    le_min (le_min (mul_nonneg hB.le k1) (mul_nonneg hB.le k4))
      (le_min (mul_nonneg hC.le k1) (mul_nonneg hC.le k4))
  have hnn23 : (0:ℝ) ≤ min
      (min (Real.exp (-9) * (1 - Real.exp (-4))) (Real.exp (-9) * (1 - Real.exp (-9))))
      (min (Real.exp (-4) * (1 - Real.exp (-4))) (Real.exp (-4) * (1 - Real.exp (-9)))) :=
    le_min (le_min (mul_nonneg hA.le k4) (mul_nonneg hA.le k9))
      (le_min (mul_nonneg hB.le k4) (mul_nonneg hB.le k9))
  unfold clip0
  rw [if_neg (not_lt.mpr hnn12), if_neg (not_lt.mpr hnn23), if_neg (not_lt.mpr hnn13)]
  apply not_le.mpr
  have hbase : min
      (min (Real.exp (-9) * (1 - Real.exp (-1))) (Real.exp (-9) * (1 - Real.exp (-9))))
      (min (Real.exp (-1) * (1 - Real.exp (-1))) (Real.exp (-1) * (1 - Real.exp (-9)))) ≤
      Real.exp (-9) * (1 - Real.exp (-1)) :=
    le_trans (min_le_left _ _) (min_le_left _ _)
  apply lt_min
  · apply lt_of_le_of_lt hbase
    apply lt_min
    · apply lt_min
      · nlinarith
      · nlinarith
    · apply lt_min
      · nlinarith
      · nlinarith
  · apply lt_of_le_of_lt hbase
    apply lt_min
    · apply lt_min
      · nlinarith
      · nlinarith
    · apply lt_min
      · nlinarith
      · nlinarith


end SpectralToolkit

